import Mathlib

/-!
Verification of the logrus-graylog-hook repository (package graylog).

The development shallowly embeds the Go sources:
  - the GELF message codec (GELFMessage, MarshalJSON, UnmarshalJSON),
  - the hook's encoding of a log entry (Hook.sendEntry),
  - the UDP datagram chunking (udpBackend.write / numChunks),
  - the TCP send/reconnect state machine (gelfBackend.SendMessage, tcpReconnect),
  - the redis durable-queue backends (SendMessage, LaunchConsumeSync),
  - the bounded ObjectPool.

Machine integers are modelled as Nat/Int, Go float64 values as Rat,
Go byte slices as List Nat, Go maps as association lists (Go map
iteration order is unspecified; where a result depends on processing
order this is noted at the definition).  External library primitives
(gzip, the JSON text parser of encoding/json, base64, crypto/rand)
are modelled executably; gzip is modelled as a header-tagged identity
coding since no claim depends on the compression algorithm itself.
-/

namespace Graylog

/-- Model of a Go `interface\x7b\x7d` value holding JSON-compatible data
(the value type of the `Extra` map).  Numbers are modelled as rationals
(Go uses float64). -/
inductive Json where
  | null : Json
  | bool (b : Bool) : Json
  | num (q : Rat) : Json
  | str (s : String) : Json
  | arr (elems : List Json) : Json
  | obj (fields : List (String × Json)) : Json

/-- Lookup in an association list modelling a Go map read. -/
def assocLookup (k : String) : List (String × Json) → Option Json
  | [] => none
  | (k', v') :: rest => if k' = k then some v' else assocLookup k rest

/-- Association-list update modelling a Go map assignment `m[k] = v`
(replaces an existing binding, otherwise appends). -/
def assocUpdate (k : String) (v : Json) : List (String × Json) → List (String × Json)
  | [] => [(k, v)]
  | (k', v') :: rest => if k' = k then (k, v) :: rest else (k', v') :: assocUpdate k v rest

/-- The GELF wire message, from `type GELFMessage struct` in the codec
source.  Field order matches the Go struct (it determines the JSON
field order produced by `json.Marshal`).  `Level` is an int32 in Go and
`Line` an int; both are modelled as `Int`. -/
structure GELFMessage where
  version : String
  host : String
  short : String
  full : String
  timeUnix : Rat
  level : Int
  facility : String
  line : Int
  file : String
  extra : List (String × Json)

/-- The nine fixed fields with their JSON names, in the order
`json.Marshal` emits them for `innerMessage` (= Go struct field order). -/
def GELFMessage.fixedPairs (m : GELFMessage) : List (String × Json) :=
  [("version", Json.str m.version),
   ("host", Json.str m.host),
   ("short_message", Json.str m.short),
   ("full_message", Json.str m.full),
   ("timestamp", Json.num m.timeUnix),
   ("level", Json.num (m.level : Rat)),
   ("facility", Json.str m.facility),
   ("line", Json.num (m.line : Rat)),
   ("file", Json.str m.file)]

/-- Decimal digit character. -/
def digitChar (n : Nat) : Char := Char.ofNat (48 + n % 10)

/-- Hexadecimal digit character (lower case, as Go uses in \u escapes). -/
def hexChar (n : Nat) : Char :=
  if n % 16 < 10 then Char.ofNat (48 + n % 16) else Char.ofNat (87 + n % 16)

/-- Decimal digits of a natural number, most significant first. -/
def natDigits (n : Nat) : List Char :=
  (Nat.toDigits 10 n)

/-- Fractional decimal digits of a rational in [0,1), up to `fuel` digits
(model of the finite decimal expansion of a float64; every float64 has
one, so the cut-off is never hit on values a Go program produces). -/
def fracDigits : Nat → Rat → List Char
  | 0, _ => []
  | fuel + 1, q =>
    if q = 0 then []
    else
      let q10 := q * 10
      let d := q10.floor
      digitChar d.toNat :: fracDigits fuel (q10 - (d : Rat))

/-- Rendering of a nonnegative rational as a JSON number literal. -/
def renderNumAbs (q : Rat) : List Char :=
  let ip := q.floor
  let fp := q - (ip : Rat)
  if fp = 0 then natDigits ip.toNat
  else natDigits ip.toNat ++ '.' :: fracDigits 17 fp

/-- Rendering of a rational as a JSON number literal (model of Go's
float64 formatting in `encoding/json`). -/
def renderNum (q : Rat) : List Char :=
  if q < 0 then '-' :: renderNumAbs (-q) else renderNumAbs q

/-- A `\uXXXX` escape for a code point below 0x10000. -/
def uEscape (n : Nat) : List Char :=
  [Char.ofNat 92, 'u', hexChar (n / 4096), hexChar (n / 256), hexChar (n / 16), hexChar n]

/-- Go `encoding/json` string escaping of one character (HTML escaping
is on by default for `json.Marshal`). -/
def escapeChar (c : Char) : List Char :=
  if c = Char.ofNat 34 then [Char.ofNat 92, Char.ofNat 34]
  else if c = Char.ofNat 92 then [Char.ofNat 92, Char.ofNat 92]
  else if c = '\n' then [Char.ofNat 92, 'n']
  else if c = '\r' then [Char.ofNat 92, 'r']
  else if c = '\t' then [Char.ofNat 92, 't']
  else if c.toNat < 32 ∨ c = '<' ∨ c = '>' ∨ c = '&' ∨ c.toNat = 0x2028 ∨ c.toNat = 0x2029 then
    uEscape c.toNat
  else [c]

/-- JSON string literal rendering (Go `encoding/json`). -/
def renderString (s : String) : List Char :=
  Char.ofNat 34 :: (s.data.map escapeChar).flatten ++ [Char.ofNat 34]

/-- Comma-separated concatenation, as `encoding/json` lays out object
members and array elements. -/
def joinComma : List (List Char) → List Char
  | [] => []
  | [x] => x
  | x :: y :: xs => x ++ ',' :: joinComma (y :: xs)

mutual

/-- Rendering of a JSON value to text, modelling `json.Marshal` of an
`interface\x7b\x7d` value.  (Go sorts the keys of nested maps; nested
objects are rendered in list order here — no claim inspects the member
order of a nested value.) -/
def renderJson : Json → List Char
  | .null => ("null" : String).data
  | .bool true => ("true" : String).data
  | .bool false => ("false" : String).data
  | .num q => renderNum q
  | .str s => renderString s
  | .arr xs => '[' :: joinComma (renderElems xs) ++ [']']
  | .obj fs => Char.ofNat 123 :: joinComma (renderFields fs) ++ [Char.ofNat 125]

/-- Renderings of the elements of a JSON array. -/
def renderElems : List Json → List (List Char)
  | [] => []
  | x :: xs => renderJson x :: renderElems xs

/-- Renderings of the members of a JSON object. -/
def renderFields : List (String × Json) → List (List Char)
  | [] => []
  | (k, v) :: xs => (renderString k ++ ':' :: renderJson v) :: renderFields xs

end

/-- Rendering of a flat JSON object with the given members, in order. -/
def renderObj (ps : List (String × Json)) : List Char :=
  Char.ofNat 123 :: joinComma (renderFields ps) ++ [Char.ofNat 125]

/-- Key-sorted copy of an association list: `json.Marshal` of a Go map
emits the members in increasing key order (byte-wise, which for UTF-8
agrees with code-point order). -/
def sortPairs (l : List (String × Json)) : List (String × Json) :=
  List.insertionSort (fun a b => a.1 ≤ b.1) l

/-- Model of `json.Marshal((*innerMessage)(m))`: the nine fixed fields
rendered in struct order. -/
def innerMarshal (m : GELFMessage) : List Char :=
  renderObj m.fixedPairs

/-- Model of `GELFMessage.MarshalJSON`: marshal the fixed fields, and if
the `Extra` map is nonempty splice its serialization in at the top
level (`b[len(b)-1] = ','` followed by `append(b, eb[1:]...)`). -/
def GELFMessage.marshalJSON (m : GELFMessage) : List Char :=
  let b := innerMarshal m
  if m.extra.isEmpty then b
  else b.dropLast ++ ',' :: (renderObj (sortPairs m.extra)).drop 1

/-- The member list of the JSON object produced by `MarshalJSON`
(fixed fields first, then the Extra members in the key order Go's map
marshalling uses). -/
def GELFMessage.marshalPairs (m : GELFMessage) : List (String × Json) :=
  m.fixedPairs ++ sortPairs m.extra

/-- Outcome of one key of `UnmarshalJSON`: either an updated message or
a Go run-time panic (the source uses unchecked type assertions and an
unchecked `k[0]`, both of which panic rather than return an error). -/
inductive StepRes where
  | next (m : GELFMessage)
  | panicked (msg : String)

/-- Go type assertion `v.(string)`. -/
def asString : Json → Option String
  | .str s => some s
  | _ => none

/-- Go type assertion `v.(float64)` (numbers decoded from JSON into an
`interface\x7b\x7d` are always float64). -/
def asNumber : Json → Option Rat
  | .num q => some q
  | _ => none

/-- Go conversion of a float64 to an integer type: truncation toward
zero.  (Wrap-around of out-of-range values is not modelled; no claim
depends on it.) -/
def goFloatToInt (q : Rat) : Int :=
  q.num.tdiv (q.den : Int)

/-- One iteration of the `for k, v := range i` loop of
`GELFMessage.UnmarshalJSON`: `k[0] == '_'` sends the member to `Extra`
(and panics with an index error when `k` is empty); otherwise the fixed
field names are filled via unchecked type assertions (which panic on a
wrong-typed value); unknown keys without an underscore are dropped. -/
def unmarshalStep (m : GELFMessage) (k : String) (v : Json) : StepRes :=
  match k.data with
  | [] => .panicked "runtime error: index out of range [0] with length 0"
  | c :: _ =>
    if c = '_' then .next { m with extra := assocUpdate k v m.extra }
    else
      match k with
      | "version" =>
        match asString v with
        | some s => .next { m with version := s }
        | none => .panicked "interface conversion"
      | "host" =>
        match asString v with
        | some s => .next { m with host := s }
        | none => .panicked "interface conversion"
      | "short_message" =>
        match asString v with
        | some s => .next { m with short := s }
        | none => .panicked "interface conversion"
      | "full_message" =>
        match asString v with
        | some s => .next { m with full := s }
        | none => .panicked "interface conversion"
      | "timestamp" =>
        match asNumber v with
        | some q => .next { m with timeUnix := q }
        | none => .panicked "interface conversion"
      | "level" =>
        match asNumber v with
        | some q => .next { m with level := goFloatToInt q }
        | none => .panicked "interface conversion"
      | "facility" =>
        match asString v with
        | some s => .next { m with facility := s }
        | none => .panicked "interface conversion"
      | "file" =>
        match asString v with
        | some s => .next { m with file := s }
        | none => .panicked "interface conversion"
      | "line" =>
        match asNumber v with
        | some q => .next { m with line := goFloatToInt q }
        | none => .panicked "interface conversion"
      | _ => .next m

/-- Result of `UnmarshalJSON` applied to an already-parsed member list:
the source either fills the receiver or panics (it has no error return
path after the initial `json.Unmarshal` into the map succeeds). -/
inductive UnmarshalResult where
  | ok (m : GELFMessage)
  | panicked (msg : String)

/-- The range loop of `UnmarshalJSON` over the decoded members.  (Go map
iteration order is unspecified; the result category — and the final
message when no member panics — is independent of the order because
distinct keys touch independent state.) -/
def unmarshalFold (m : GELFMessage) : List (String × Json) → UnmarshalResult
  | [] => .ok m
  | (k, v) :: rest =>
    match unmarshalStep m k v with
    | .next m2 => unmarshalFold m2 rest
    | .panicked e => .panicked e

/-- The Go zero value of `GELFMessage` (the receiver `UnmarshalJSON`
starts from in `json.Unmarshal(data, &gelfMessage)`). -/
def emptyGELF : GELFMessage :=
  { version := "", host := "", short := "", full := "", timeUnix := 0,
    level := 0, facility := "", line := 0, file := "", extra := [] }

/-- `GELFMessage.UnmarshalJSON` on the member list of the decoded
top-level object. -/
def unmarshalPairs (pairs : List (String × Json)) : UnmarshalResult :=
  unmarshalFold emptyGELF pairs

/-- The logrus severity levels (ordered enum of the producer side). -/
inductive LogrusLevel where
  | panicLevel | fatalLevel | errorLevel | warnLevel | infoLevel | debugLevel | traceLevel
deriving DecidableEq

/-- `logrusLevelToSyslog` from the codec source: panic→alert(1),
fatal→critical(2), error→error(3), warn→warning(4), info→info(6),
debug/trace→debug(7), default→debug(7). -/
def logrusLevelToSyslog : LogrusLevel → Int
  | .panicLevel => 1
  | .fatalLevel => 2
  | .errorLevel => 3
  | .warnLevel => 4
  | .infoLevel => 6
  | .debugLevel => 7
  | .traceLevel => 7

/-- Go `unicode.IsSpace` (the White_Space property), used by
`bytes.TrimSpace`. -/
def goIsSpace (c : Char) : Bool :=
  let n := c.toNat
  decide ((9 ≤ n ∧ n ≤ 13) ∨ n = 32 ∨ n = 0x85 ∨ n = 0xA0 ∨ n = 0x1680 ∨
    (0x2000 ≤ n ∧ n ≤ 0x200A) ∨ n = 0x2028 ∨ n = 0x2029 ∨ n = 0x202F ∨
    n = 0x205F ∨ n = 0x3000)

/-- `bytes.TrimSpace`: drop leading and trailing Unicode white space. -/
def trimSpace (l : List Char) : List Char :=
  (l.dropWhile goIsSpace).rdropWhile goIsSpace

/-- `bytes.IndexRune(p, c)` (here only used with a rune that is a single
UTF-8 byte, so the byte index is positive exactly when the character
index is). -/
def indexOfChar (c : Char) : List Char → Option Nat
  | [] => none
  | c' :: rest => if c' = c then some 0 else (indexOfChar c rest).map (· + 1)

/-- The short/full split of `sendEntry`: trim the message, and when the
first newline of the trimmed text sits at a positive index, the text
before it is the short message and the whole trimmed text the full
message; otherwise the trimmed text is the short message and the full
message is empty. -/
def shortFull (msg : String) : String × String :=
  let p := trimSpace msg.data
  match indexOfChar '\n' p with
  | some i => if 0 < i then (⟨p.take i⟩, ⟨p⟩) else (⟨p⟩, "")
  | none => (⟨p⟩, "")

/-- A producer-side log record as `sendEntry` receives it (the
`gelfEntry` struct).  Custom field values are modelled as JSON values;
the special wrapping of Go `error` values (`marshallableError`) lies
outside the JSON value model and only changes how such a value
serializes, not which key holds it. -/
structure GelfEntry where
  level : LogrusLevel
  data : List (String × Json)
  message : String
  file : String
  line : Int
  function : String

/-- A `for k, v := range l \x7b acc["_"+k] = v \x7d` loop. -/
def underscoreFold (l : List (String × Json)) (acc : List (String × Json)) :
    List (String × Json) :=
  l.foldl (fun acc kv => assocUpdate ("_" ++ kv.1) kv.2 acc) acc

/-- `Hook.sendEntry` up to the `SendMessage` call: build the wire
message from a log entry.  `host` is the cached hostname, `now` the
float64 unix timestamp, `hookExtra` the hook-level extra fields. -/
def sendEntry (host : String) (now : Rat) (hookExtra : List (String × Json))
    (e : GelfEntry) : GELFMessage :=
  let sf := shortFull e.message
  let extra0 := underscoreFold hookExtra []
  let extra1 := assocUpdate "_caller_function" (Json.str e.function)
    (assocUpdate "_caller_line" (Json.num (e.line : Rat))
      (assocUpdate "_caller_file" (Json.str e.file) extra0))
  let extra2 := underscoreFold e.data extra1
  { version := "1.1", host := host, short := sf.1, full := sf.2,
    timeUnix := now, level := logrusLevelToSyslog e.level,
    facility := "", line := 0, file := "", extra := extra2 }

/-! ## UDP datagram transport (`udpBackend.write`, `numChunks`) -/

/-- `ChunkSize` from the source: the maximum datagram size. -/
def ChunkSize : Nat := 1420

/-- `chunkedHeaderLen`: the chunk header length. -/
def chunkedHeaderLen : Nat := 12

/-- `chunkedDataLen = ChunkSize - chunkedHeaderLen`. -/
def chunkedDataLen : Nat := ChunkSize - chunkedHeaderLen

/-- `numChunks` from the source: the number of GELF chunks necessary to
transmit the given compressed buffer. -/
def numChunks (b : List Nat) : Nat :=
  if b.length ≤ ChunkSize then 1
  else if b.length % chunkedDataLen = 0 then b.length / chunkedDataLen
  else b.length / chunkedDataLen + 1

/-- The 12-byte chunk header: 2-byte magic `0x1e 0x0f`, the 8-byte
message id, the chunk index, the total chunk count. -/
def chunkHeader (msgId : List Nat) (i n : Nat) : List Nat :=
  0x1e :: 0x0f :: msgId ++ [i, n]

/-- The chunk loop of `udpBackend.write`: for each index `i` below
`nChunks`, emit the header followed by the next slice of at most
`chunkedDataLen` payload bytes (`chunkLen = min chunkedDataLen
bytesLeft`, slice `bs[i*chunkedDataLen : ...+chunkLen]`).  Returns the
datagrams written and the final `bytesLeft`. -/
def udpChunkLoop (msgId : List Nat) (bs : List Nat) (nChunks : Nat) :
    Nat → Nat → List (List Nat) × Nat
  | i, bytesLeft =>
    if _h : i < nChunks then
      let chunkLen := min chunkedDataLen bytesLeft
      let chunk := (bs.drop (i * chunkedDataLen)).take chunkLen
      let rest := udpChunkLoop msgId bs nChunks (i + 1) (bytesLeft - chunkLen)
      ((chunkHeader msgId i nChunks ++ chunk) :: rest.1, rest.2)
    else ([], bytesLeft)
  termination_by i _ => nChunks - i

/-- `udpBackend.write`: returns the datagrams handed to `conn.Write`
and the error result.  Over 255 required chunks the function returns an
error before writing anything; one chunk is sent unchunked; otherwise
the chunk loop runs and the trailing `bytesLeft != 0` check applies.
(`conn.Write` on a connected UDP socket is modelled as accepting the
full buffer, so the short-write error branches do not arise; the
`crypto/rand` message id is a parameter.) -/
def udpWrite (msgId : List Nat) (bs : List Nat) : List (List Nat) × Option String :=
  let chunkCount := numChunks bs
  if 255 < chunkCount then ([], some "msg too large")
  else if chunkCount = 1 then ([bs], none)
  else
    let r := udpChunkLoop msgId bs chunkCount 0 bs.length
    (r.1, if r.2 ≠ 0 then some "bytes left after sending" else none)

/-! ## TCP stream transport (`gelfBackend.SendMessage`, `tcpWrite`,
`tcpReconnect`) — the version taking a retry budget, cited by the
claims.  Connection behaviour is modelled by outcome oracles: one
boolean per attempted `conn.Write` of a whole packet (true = the write
succeeds, false = it fails with a network error, which `tcpWrite` wraps
as `errNetwork`) and one boolean per `net.Dial` attempt. -/

/-- Observable actions of the TCP send path.  `closeConn` would be a
`conn.Close()` call — the cited `tcpReconnect` never performs one. -/
inductive TcpEvent where
  | wrote (ok : Bool)
  | closeConn
  | dialed (ok : Bool)
  | slept
deriving DecidableEq

/-- `tcpReconnect(retries, interval)` with its dial-outcome oracle:
print, dial; on failure count the attempt, sleep, and give up once
`connectCount >= retries` unless `retries == -1`; on success store the
connection and stop.  Result: `some true` = connected, `some false` =
budget exhausted (the last dial error is returned), `none` = the finite
oracle ran out while the loop was still running. -/
def tcpReconnectLoop (retries : Int) (connectCount : Int) :
    List Bool → List TcpEvent × Option Bool
  | [] => ([], none)
  | d :: rest =>
    if d then ([.dialed true], some true)
    else
      let cc := connectCount + 1
      if retries ≠ -1 ∧ retries ≤ cc then ([.dialed false, .slept], some false)
      else
        let r := tcpReconnectLoop retries cc rest
        (.dialed false :: .slept :: r.1, r.2)

/-- `tcpReconnect` entry: a retry budget of 0 is normalized to 1. -/
def tcpReconnect (retries : Int) (dials : List Bool) : List TcpEvent × Option Bool :=
  tcpReconnectLoop (if retries = 0 then 1 else retries) 0 dials

/-- The TCP branch of `gelfBackend.SendMessage`: write the packet; on a
network error reconnect with an unbounded budget (`tcpReconnect(-1,
time.Second)`) and then retry the write exactly once, returning that
second result as is.  `w1`/`w2` are the outcomes of the two potential
packet writes, `dials` the dial oracle.  The result is `none` when the
dial oracle ran out while still reconnecting, otherwise `some r` with
`r = none` for success and `r = some e` for an error returned to the
caller. -/
def tcpSendMessage (w1 : Bool) (dials : List Bool) (w2 : Bool) :
    List TcpEvent × Option (Option String) :=
  if w1 then ([.wrote true], some none)
  else
    let rec1 := tcpReconnect (-1) dials
    match rec1.2 with
    | none => (.wrote false :: rec1.1, none)
    | some false => (.wrote false :: rec1.1, some (some "dial failed"))
    | some true =>
      (.wrote false :: rec1.1 ++ [.wrote w2],
       some (if w2 then none else some "network error"))

/-! ## Byte-level codecs used by the redis durable-queue backend. -/

/-- UTF-8 encoding of one character. -/
def utf8EncodeChar (c : Char) : List Nat :=
  let n := c.toNat
  if n < 0x80 then [n]
  else if n < 0x800 then [0xC0 + n / 64, 0x80 + n % 64]
  else if n < 0x10000 then [0xE0 + n / 4096, 0x80 + n / 64 % 64, 0x80 + n % 64]
  else [0xF0 + n / 262144, 0x80 + n / 4096 % 64, 0x80 + n / 64 % 64, 0x80 + n % 64]

/-- UTF-8 encoding of a character list (Go `[]byte(string)`). -/
def utf8Encode (l : List Char) : List Nat :=
  (l.map utf8EncodeChar).flatten

/-- Make a character from a code point, checking validity. -/
def charOfNat? (n : Nat) : Option Char :=
  if n.isValidChar then some (Char.ofNat n) else none

/-- UTF-8 decoding (sufficient for the byte strings the model encodes;
malformed input yields `none`, modelling a JSON syntax error on
non-UTF-8 wire bytes). -/
def utf8Decode : List Nat → Option (List Char)
  | [] => some []
  | b :: rest =>
    if b < 0x80 then
      match charOfNat? b, utf8Decode rest with
      | some c, some cs => some (c :: cs)
      | _, _ => none
    else if b < 0xC0 then none
    else if b < 0xE0 then
      match rest with
      | b2 :: r =>
        if 0x80 ≤ b2 ∧ b2 < 0xC0 then
          match charOfNat? ((b - 0xC0) * 64 + (b2 - 0x80)), utf8Decode r with
          | some c, some cs => some (c :: cs)
          | _, _ => none
        else none
      | _ => none
    else if b < 0xF0 then
      match rest with
      | b2 :: b3 :: r =>
        if (0x80 ≤ b2 ∧ b2 < 0xC0) ∧ (0x80 ≤ b3 ∧ b3 < 0xC0) then
          match charOfNat? ((b - 0xE0) * 4096 + (b2 - 0x80) * 64 + (b3 - 0x80)),
              utf8Decode r with
          | some c, some cs => some (c :: cs)
          | _, _ => none
        else none
      | _ => none
    else
      match rest with
      | b2 :: b3 :: b4 :: r =>
        if (0x80 ≤ b2 ∧ b2 < 0xC0) ∧ (0x80 ≤ b3 ∧ b3 < 0xC0) ∧ (0x80 ≤ b4 ∧ b4 < 0xC0) then
          match charOfNat?
              ((b - 0xF0) * 262144 + (b2 - 0x80) * 4096 + (b3 - 0x80) * 64 + (b4 - 0x80)),
              utf8Decode r with
          | some c, some cs => some (c :: cs)
          | _, _ => none
        else none
      | _ => none

/-- gzip, modelled as a header-tagged identity coding: the claims about
the durable queue depend only on the coding being invertible and on
corrupt input being rejected, not on DEFLATE itself (external
library). -/
def gzipCompress (bs : List Nat) : List Nat :=
  0x1f :: 0x8b :: bs

/-- Inverse of the gzip model: `gzip.NewReader` rejects input without
the gzip magic. -/
def gzipDecompress : List Nat → Option (List Nat)
  | 0x1f :: 0x8b :: rest => some rest
  | _ => none

/-- Base64 digit character (standard alphabet). -/
def b64Char (n : Nat) : Char :=
  if n < 26 then Char.ofNat (65 + n)
  else if n < 52 then Char.ofNat (97 + (n - 26))
  else if n < 62 then Char.ofNat (48 + (n - 52))
  else if n = 62 then '+'
  else '/'

/-- Base64 digit value of a character. -/
def b64Val (c : Char) : Option Nat :=
  let n := c.toNat
  if 65 ≤ n ∧ n ≤ 90 then some (n - 65)
  else if 97 ≤ n ∧ n ≤ 122 then some (n - 97 + 26)
  else if 48 ≤ n ∧ n ≤ 57 then some (n - 48 + 52)
  else if n = 43 then some 62
  else if n = 47 then some 63
  else none

/-- `base64.RawStdEncoding.EncodeToString` (standard alphabet, no
padding). -/
def b64Encode : List Nat → List Char
  | b1 :: b2 :: b3 :: rest =>
    b64Char (b1 / 4) :: b64Char ((b1 % 4) * 16 + b2 / 16) ::
      b64Char ((b2 % 16) * 4 + b3 / 64) :: b64Char (b3 % 64) :: b64Encode rest
  | [b1, b2] =>
    [b64Char (b1 / 4), b64Char ((b1 % 4) * 16 + b2 / 16), b64Char ((b2 % 16) * 4)]
  | [b1] => [b64Char (b1 / 4), b64Char ((b1 % 4) * 16)]
  | [] => []

/-- `base64.RawStdEncoding.DecodeString`: groups of four digits yield
three bytes; a trailing group of three yields two and of two yields
one; unused trailing bits must be zero and a single trailing digit is
corrupt input. -/
def b64Decode : List Char → Option (List Nat)
  | c1 :: c2 :: c3 :: c4 :: rest =>
    match b64Val c1, b64Val c2, b64Val c3, b64Val c4 with
    | some v1, some v2, some v3, some v4 =>
      match rest with
      | [] =>
        some [v1 * 4 + v2 / 16, (v2 % 16) * 16 + v3 / 4, (v3 % 4) * 64 + v4]
      | _ =>
        (b64Decode rest).map
          (fun tail =>
            (v1 * 4 + v2 / 16) :: ((v2 % 16) * 16 + v3 / 4) :: ((v3 % 4) * 64 + v4) :: tail)
    | _, _, _, _ => none
  | [c1, c2, c3] =>
    match b64Val c1, b64Val c2, b64Val c3 with
    | some v1, some v2, some v3 =>
      if v3 % 4 = 0 then some [v1 * 4 + v2 / 16, (v2 % 16) * 16 + v3 / 4] else none
    | _, _, _ => none
  | [c1, c2] =>
    match b64Val c1, b64Val c2 with
    | some v1, some v2 => if v2 % 16 = 0 then some [v1 * 4 + v2 / 16] else none
    | _, _ => none
  | [_] => none
  | [] => some []

/-! ## A small JSON text parser, modelling the `encoding/json` decoding
of wire bytes into a `map[string]interface\x7b\x7d`. -/

/-- JSON insignificant white space. -/
def jsonWs (c : Char) : Bool :=
  c = ' ' ∨ c = '\t' ∨ c = '\n' ∨ c = '\r'

/-- Parse the remainder of a JSON string literal after the opening
quote (the model handles the escapes Go emits; a `\u` escape denoting
an unpaired surrogate is rejected rather than replaced). -/
def parseStringRest : List Char → Option (List Char × List Char)
  | [] => none
  | c :: rest =>
    if c = Char.ofNat 34 then some ([], rest)
    else if c = Char.ofNat 92 then
      match rest with
      | [] => none
      | e :: r =>
        if e = 'u' then
          match r with
          | h1 :: h2 :: h3 :: h4 :: r' =>
            match (String.mk [h1, h2, h3, h4]).toNat? with
            | _ => -- hex, not decimal: decode the four hex digits directly
              let hv := fun (c : Char) =>
                let n := c.toNat
                if 48 ≤ n ∧ n ≤ 57 then some (n - 48)
                else if 97 ≤ n ∧ n ≤ 102 then some (n - 87)
                else if 65 ≤ n ∧ n ≤ 70 then some (n - 55)
                else none
              match hv h1, hv h2, hv h3, hv h4 with
              | some a, some b, some cc, some d =>
                match charOfNat? (a * 4096 + b * 256 + cc * 16 + d) with
                | some ch =>
                  (parseStringRest r').map (fun pr => (ch :: pr.1, pr.2))
                | none => none
              | _, _, _, _ => none
          | _ => none
        else
          let decoded : Option Char :=
            if e = Char.ofNat 34 then some (Char.ofNat 34)
            else if e = Char.ofNat 92 then some (Char.ofNat 92)
            else if e = '/' then some '/'
            else if e = 'n' then some '\n'
            else if e = 't' then some '\t'
            else if e = 'r' then some '\r'
            else if e = 'b' then some (Char.ofNat 8)
            else if e = 'f' then some (Char.ofNat 12)
            else none
          match decoded with
          | some ch => (parseStringRest r).map (fun pr => (ch :: pr.1, pr.2))
          | none => none
    else (parseStringRest rest).map (fun pr => (c :: pr.1, pr.2))

/-- Parse a run of decimal digits into a value and the digit count. -/
def parseDigits : List Char → Nat → Nat → (Nat × Nat × List Char)
  | c :: rest, acc, cnt =>
    if 48 ≤ c.toNat ∧ c.toNat ≤ 57 then
      parseDigits rest (acc * 10 + (c.toNat - 48)) (cnt + 1)
    else (acc, cnt, c :: rest)
  | [], acc, cnt => (acc, cnt, [])

/-- Parse a JSON number literal into a rational. -/
def parseNumber (l : List Char) : Option (Rat × List Char) :=
  let (neg, l1) := match l with
    | '-' :: r => (true, r)
    | _ => (false, l)
  let (ip, ipCnt, l2) := parseDigits l1 0 0
  if ipCnt = 0 then none
  else
    let (fracNum, fracCnt, l3) := match l2 with
      | '.' :: r =>
        let (f, fc, r') := parseDigits r 0 0
        (f, fc, r')
      | _ => (0, 0, l2)
    let (expVal, expOk, l4) : Int × Bool × List Char := match l3 with
      | 'e' :: '-' :: r =>
        let (e, ec, r') := parseDigits r 0 0
        (-(e : Int), ec ≠ 0, r')
      | 'e' :: '+' :: r =>
        let (e, ec, r') := parseDigits r 0 0
        ((e : Int), ec ≠ 0, r')
      | 'e' :: r =>
        let (e, ec, r') := parseDigits r 0 0
        ((e : Int), ec ≠ 0, r')
      | 'E' :: '-' :: r =>
        let (e, ec, r') := parseDigits r 0 0
        (-(e : Int), ec ≠ 0, r')
      | 'E' :: '+' :: r =>
        let (e, ec, r') := parseDigits r 0 0
        ((e : Int), ec ≠ 0, r')
      | 'E' :: r =>
        let (e, ec, r') := parseDigits r 0 0
        ((e : Int), ec ≠ 0, r')
      | _ => (0, true, l3)
    if ¬ expOk then none
    else
      let mantissa : Rat := (ip : Rat) + (fracNum : Rat) / ((10 : Rat) ^ fracCnt)
      let signed := if neg then -mantissa else mantissa
      let value := if 0 ≤ expVal
        then signed * (10 : Rat) ^ expVal.toNat
        else signed / (10 : Rat) ^ (-expVal).toNat
      some (value, l4)

mutual

/-- Parse one JSON value. -/
def parseValue : Nat → List Char → Option (Json × List Char)
  | 0, _ => none
  | fuel + 1, l =>
    match l.dropWhile jsonWs with
    | [] => none
    | c :: rest =>
      if c = Char.ofNat 123 then parseMembers fuel (rest.dropWhile jsonWs) []
      else if c = '[' then parseElements fuel (rest.dropWhile jsonWs) []
      else if c = Char.ofNat 34 then
        (parseStringRest rest).map (fun pr => (Json.str ⟨pr.1⟩, pr.2))
      else
        match c :: rest with
        | 't' :: 'r' :: 'u' :: 'e' :: r => some (Json.bool true, r)
        | 'f' :: 'a' :: 'l' :: 's' :: 'e' :: r => some (Json.bool false, r)
        | 'n' :: 'u' :: 'l' :: 'l' :: r => some (Json.null, r)
        | l' => (parseNumber l').map (fun pr => (Json.num pr.1, pr.2))

/-- Parse object members after the opening brace (`acc` in reverse). -/
def parseMembers (fuel : Nat) (l : List Char) (acc : List (String × Json)) :
    Option (Json × List Char) :=
    match fuel with
    | 0 => none
    | fuel + 1 =>
      match l with
      | [] => none
      | c :: rest =>
        if c = Char.ofNat 125 then
          match acc with
          | [] => some (Json.obj [], rest)
          | _ => none
        else if c = Char.ofNat 34 then
          match parseStringRest rest with
          | none => none
          | some (key, r1) =>
            match r1.dropWhile jsonWs with
            | ':' :: r2 =>
              match parseValue fuel r2 with
              | none => none
              | some (v, r3) =>
                match r3.dropWhile jsonWs with
                | ',' :: r4 =>
                  parseMembers fuel (r4.dropWhile jsonWs) ((⟨key⟩, v) :: acc)
                | c' :: r4 =>
                  if c' = Char.ofNat 125 then
                    some (Json.obj (((⟨key⟩, v) :: acc).reverse), r4)
                  else none
                | [] => none
            | _ => none
        else none

/-- Parse array elements after the opening bracket (`acc` in reverse). -/
def parseElements (fuel : Nat) (l : List Char) (acc : List Json) :
    Option (Json × List Char) :=
    match fuel with
    | 0 => none
    | fuel + 1 =>
      match l with
      | [] => none
      | ']' :: rest =>
        match acc with
        | [] => some (Json.arr [], rest)
        | _ => none
      | l' =>
        match parseValue fuel l' with
        | none => none
        | some (v, r1) =>
          match r1.dropWhile jsonWs with
          | ',' :: r2 => parseElements fuel r2 (v :: acc)
          | ']' :: r2 => some (Json.arr ((v :: acc).reverse), r2)
          | _ => none

end

/-- `json.Unmarshal(data, &i)` for `i : map[string]interface\x7b\x7d`:
parse the text and require a single top-level object.  Duplicate keys:
the later member wins, which the member list preserves because every
later consumer applies the members in order with update semantics. -/
def jsonParseObject (l : List Char) : Option (List (String × Json)) :=
  match parseValue (l.length + 1) l with
  | some (Json.obj ps, rest) => if (rest.dropWhile jsonWs).isEmpty then some ps else none
  | _ => none

/-- Result of deserializing wire bytes into a `GELFMessage`
(`json.Unmarshal(data, &gelfMessage)`): a decode error is returned for
malformed JSON, while a wrong-typed fixed field or an empty key panics
inside `UnmarshalJSON`. -/
inductive DecodeRes where
  | ok (m : GELFMessage)
  | errored (e : String)
  | panicked (msg : String)
deriving Inhabited

/-- Deserialize: parse the bytes as UTF-8 JSON text, then run
`UnmarshalJSON`'s member loop. -/
def gelfUnmarshal (bytes : List Nat) : DecodeRes :=
  match utf8Decode bytes with
  | none => .errored "invalid JSON"
  | some chars =>
    match jsonParseObject chars with
    | none => .errored "invalid JSON"
    | some pairs =>
      match unmarshalPairs pairs with
      | .ok m => .ok m
      | .panicked e => .panicked e

/-- The fixed field names `UnmarshalJSON` fills via `v.(string)`. -/
def isStringField (k : String) : Bool :=
  k == "version" || k == "host" || k == "short_message" || k == "full_message" ||
    k == "facility" || k == "file"

/-- The fixed field names `UnmarshalJSON` fills via `v.(float64)`. -/
def isNumberField (k : String) : Bool :=
  k == "timestamp" || k == "level" || k == "line"

/-- A member that carries a fixed field name with the wrong JSON type
(the corresponding type assertion fails). -/
def wrongTyped (k : String) (v : Json) : Bool :=
  (isStringField k && (asString v).isNone) || (isNumberField k && (asNumber v).isNone)

/-! ## Redis durable-queue backends. -/

/-- `redisBackend.SendMessage` (go-redis version): marshal, compress,
base64-encode, then `RPush` once — the push result is returned to the
caller directly (`return r.redis.RPush(...).Err()`).  `pushOk` is the
store's response, `q` the queue contents. -/
def redisSendMessage (m : GELFMessage) (pushOk : Bool) (q : List String) :
    List String × Option String :=
  let payload : String := ⟨b64Encode (gzipCompress (utf8Encode m.marshalJSON))⟩
  if pushOk then (q ++ [payload], none) else (q, some "push failed")

/-- The enqueue loop of the asynq-based `redisBackend.SendMessage`:
`for \x7b enqueue; on error print, sleep a second, continue; on success
return nil \x7d`.  The oracle lists the store's successive responses
(`some e` = enqueue error).  Returns the number of one-second sleeps
performed and `some r` once the loop returns (`none` if the finite
oracle ran out while still retrying). -/
def asynqSendLoop : List (Option String) → Nat × Option (Option String)
  | [] => (0, none)
  | none :: _ => (0, some none)
  | some _ :: rest =>
    let r := asynqSendLoop rest
    (r.1 + 1, r.2)

/-- Outcome of one iteration of `redisBackend.LaunchConsumeSync`'s loop
on a nonempty queue: either the loop continues with a new queue state
(possibly after invoking the handler), or it returns an error to its
caller, or it crashes on a decode panic.  `handled` records the message
the caller-supplied handler was invoked with, if any. -/
structure ConsumeStep where
  queue : List String
  handled : Option GELFMessage
  returned : Option String
  crashed : Option String

/-- The decode chain of one consumed payload: base64-decode
(`base64.RawStdEncoding.DecodeString`), decompress (`gzip.NewReader` +
`io.ReadAll`), deserialize (`json.Unmarshal` into a `GELFMessage`). -/
def decodePayload (v : String) : DecodeRes :=
  match b64Decode v.data with
  | none => .errored "base64 error"
  | some bytes =>
    match gzipDecompress bytes with
    | none => .errored "gzip error"
    | some data => gelfUnmarshal data

/-- One iteration of `LaunchConsumeSync` after `BLPop` popped the head
`v` of the queue: an empty popped value sleeps and continues; base64,
gzip or JSON failures return the error; otherwise the handler runs and
on failure the payload is pushed back (`RPush`) before the error is
returned. -/
def consumeIteration (handler : GELFMessage → Option String) (v : String)
    (rest : List String) : ConsumeStep :=
  if v = "" then { queue := rest, handled := none, returned := none, crashed := none }
  else
    match decodePayload v with
    | .errored e => { queue := rest, handled := none, returned := some e, crashed := none }
    | .panicked e => { queue := rest, handled := none, returned := none, crashed := some e }
    | .ok m =>
      match handler m with
      | some e =>
        { queue := rest ++ [v], handled := some m, returned := some e, crashed := none }
      | none => { queue := rest, handled := some m, returned := none, crashed := none }

/-! ## ObjectPool. -/

/-- State of an `ObjectPool`: the count of successfully created objects
and the FIFO of released objects (`BlockingList`: `PushBack` appends,
`FrontBlock` pops the front).  Objects are identified by the order of
their creation: the factory's `n`-th successful call yields id `n`. -/
structure PoolState where
  createdCount : Nat
  items : List Nat

/-- Result of `ObjectPool.Get`: a freshly created object, an object
popped from the released list, or a block on the empty list
(`FrontBlock` waiting).  The factory's failure loop (`create obj
failed` + sleep) retries in place and creates nothing, so only
successful factory calls appear. -/
inductive GetRes where
  | fresh (id : Nat)
  | pooled (id : Nat)
  | blocked
deriving DecidableEq

/-- `ObjectPool.Get`: under the pool mutex, while `createdCount <
capacity` the factory runs (until it succeeds) and the count is
incremented; otherwise the caller pops the released FIFO, blocking on
emptiness. -/
def poolGet (capacity : Nat) (st : PoolState) : PoolState × GetRes :=
  if st.createdCount < capacity then
    ({ st with createdCount := st.createdCount + 1 }, .fresh st.createdCount)
  else
    match st.items with
    | [] => (st, .blocked)
    | v :: rest => ({ st with items := rest }, .pooled v)

/-- `ObjectPool.Put`: `PushBack` the object onto the released FIFO. -/
def poolPut (st : PoolState) (v : Nat) : PoolState :=
  { st with items := st.items ++ [v] }

/-- A pool operation: a `Get` call or a `Put` of object `v`. -/
inductive PoolOp where
  | get
  | put (v : Nat)

/-- Observable events of a pool run. -/
inductive PoolEvent where
  | got (r : GetRes)
  | putEv (v : Nat)
deriving DecidableEq

/-- Run a sequence of pool operations (the pool mutex serializes Get
calls; Put only touches the `BlockingList`, so a sequential
interleaving is a faithful model of any schedule's happens-before
order).  Returns the event list and the final state. -/
def poolRun (capacity : Nat) (st : PoolState) :
    List PoolOp → List PoolEvent × PoolState
  | [] => ([], st)
  | .get :: ops =>
    let r := poolGet capacity st
    let rest := poolRun capacity r.1 ops
    (.got r.2 :: rest.1, rest.2)
  | .put v :: ops =>
    let rest := poolRun capacity (poolPut st v) ops
    (.putEv v :: rest.1, rest.2)

/-- Whether a pool event is a successful factory creation. -/
def isFreshEvent : PoolEvent → Bool
  | .got (.fresh _) => true
  | _ => false

/-- `NewObjectPool` normalizes a nonpositive capacity to 1 and starts
with no created objects and an empty released list. -/
def newPoolCapacity (capacity : Int) : Nat :=
  if capacity ≤ 0 then 1 else capacity.toNat

/-- The initial pool state. -/
def initPool : PoolState := { createdCount := 0, items := [] }

/-! ## Lemmas and claim theorems. -/

theorem chunkedDataLen_eq : chunkedDataLen = 1408 := rfl

theorem chunkHeader_length (msgId : List Nat) (i n : Nat) (h8 : msgId.length = 8) :
    (chunkHeader msgId i n).length = 12 := by
  simp [chunkHeader, h8]

theorem take_min_length (l : List Nat) (a : Nat) : l.take (min a l.length) = l.take a := by
  rcases Nat.le_total a l.length with h | h
  · rw [Nat.min_eq_left h]
  · rw [Nat.min_eq_right h, List.take_length, List.take_of_length_le h]

theorem take_append_len12 (l₁ l₂ : List Nat) (h : l₁.length = 12) :
    (l₁ ++ l₂).take 12 = l₁ := by
  rw [← h, List.take_left]

theorem drop_append_len12 (l₁ l₂ : List Nat) (h : l₁.length = 12) :
    (l₁ ++ l₂).drop 12 = l₂ := by
  rw [← h, List.drop_left]

theorem udpChunkLoop_spec (msgId bs : List Nat) (n : Nat)
    (hub : bs.length ≤ n * 1408) :
    ∀ k i, i + k = n →
      udpChunkLoop msgId bs n i (bs.length - i * 1408) =
        ((List.range' i k).map
          (fun j => chunkHeader msgId j n ++ (bs.drop (j * 1408)).take 1408),
         0) := by
  intro k
  induction k with
  | zero =>
    intro i hi
    rw [udpChunkLoop]
    simp only [show ¬ i < n by omega, dif_neg, not_false_iff]
    rw [show bs.length - i * 1408 = 0 by omega]
    simp
  | succ k ih =>
    intro i hi
    have hin : i < n := by omega
    have hmin : (bs.drop (i * 1408)).take (min 1408 (bs.length - i * 1408)) =
        (bs.drop (i * 1408)).take 1408 := by
      have h := take_min_length (bs.drop (i * 1408)) 1408
      rwa [List.length_drop] at h
    rw [udpChunkLoop]
    simp only [hin, dif_pos, chunkedDataLen_eq]
    rw [show bs.length - i * 1408 - min 1408 (bs.length - i * 1408) =
        bs.length - (i + 1) * 1408 by omega]
    rw [ih (i + 1) (by omega), List.range'_succ, List.map_cons, hmin]

/-- C1: For every compressed payload handed to the datagram transport's
write (with the 8-byte random message id as a parameter): a payload of
at most 1420 bytes is sent as exactly one unchunked datagram; a larger
payload is split into exactly `ceil(S/1408)` datagrams, each at most
1420 bytes, each being the 12-byte header `0x1e 0x0f ++ msgId ++
[index, count]` followed by the next payload slice (so the slices
reassemble to the payload); and when the required chunk count exceeds
255, write returns an error and no datagram is sent. -/
theorem udp_write_chunk_layout (msgId bs : List Nat) (h8 : msgId.length = 8) :
    (bs.length ≤ 1420 → udpWrite msgId bs = ([bs], none)) ∧
    (1420 < bs.length → numChunks bs ≤ 255 →
      numChunks bs = (bs.length + 1407) / 1408 ∧
      (udpWrite msgId bs).2 = none ∧
      (udpWrite msgId bs).1.length = numChunks bs ∧
      (∀ j, (hj : j < (udpWrite msgId bs).1.length) →
        ((udpWrite msgId bs).1.get ⟨j, hj⟩).length ≤ 1420 ∧
        ((udpWrite msgId bs).1.get ⟨j, hj⟩).take 12 =
          0x1e :: 0x0f :: msgId ++ [j, numChunks bs] ∧
        ((udpWrite msgId bs).1.get ⟨j, hj⟩).drop 12 =
          (bs.drop (j * 1408)).take 1408) ∧
      ((udpWrite msgId bs).1.map (fun d => d.drop 12)).flatten = bs) ∧
    (255 < numChunks bs → udpWrite msgId bs = ([], some "msg too large")) := by
  refine ⟨?_, ?_, ?_⟩
  · intro hle
    have h1 : numChunks bs = 1 := by
      unfold numChunks
      simp [show bs.length ≤ ChunkSize from hle]
    unfold udpWrite
    rw [h1]
    simp
  · intro hgt hle
    have hnc : numChunks bs = (bs.length + 1407) / 1408 := by
      have hdef : numChunks bs = if bs.length ≤ 1420 then 1
          else if bs.length % 1408 = 0 then bs.length / 1408
          else bs.length / 1408 + 1 := rfl
      rw [hdef]
      simp only [show ¬ bs.length ≤ 1420 by omega, if_false]
      by_cases h : bs.length % 1408 = 0 <;> simp only [h, if_true, if_false] <;> omega
    have hn1 : 1 < numChunks bs := by omega
    have hub : bs.length ≤ numChunks bs * 1408 := by omega
    have hloop := udpChunkLoop_spec msgId bs (numChunks bs) hub (numChunks bs) 0 (by omega)
    norm_num at hloop
    have hw : udpWrite msgId bs =
        ((List.range' 0 (numChunks bs)).map
          (fun j => chunkHeader msgId j (numChunks bs) ++ (bs.drop (j * 1408)).take 1408),
         none) := by
      unfold udpWrite
      simp only [show ¬ 255 < numChunks bs by omega, if_false,
        show ¬ numChunks bs = 1 by omega, if_false]
      rw [hloop]
      simp
    refine ⟨hnc, by rw [hw], by rw [hw]; simp, ?_, ?_⟩
    · intro j hj
      have hjn : j < numChunks bs := by
        rw [hw] at hj; simpa using hj
      have hget : (udpWrite msgId bs).1.get ⟨j, hj⟩ =
          chunkHeader msgId j (numChunks bs) ++ (bs.drop (j * 1408)).take 1408 := by
        have h1 : (udpWrite msgId bs).1 = (List.range' 0 (numChunks bs)).map
            (fun j => chunkHeader msgId j (numChunks bs) ++ (bs.drop (j * 1408)).take 1408) :=
          congrArg Prod.fst hw
        rw [List.get_eq_getElem, List.getElem_of_eq h1]
        simp
      refine ⟨?_, ?_, ?_⟩
      · rw [hget]
        simp only [List.length_append, chunkHeader_length msgId j (numChunks bs) h8,
          List.length_take, List.length_drop]
        omega
      · rw [hget, take_append_len12 _ _ (chunkHeader_length msgId j (numChunks bs) h8)]
        simp [chunkHeader]
      · rw [hget, drop_append_len12 _ _ (chunkHeader_length msgId j (numChunks bs) h8)]
    · rw [hw]
      have hdrop : ∀ p ∈ (List.range' 0 (numChunks bs)).map
          (fun j => chunkHeader msgId j (numChunks bs) ++ (bs.drop (j * 1408)).take 1408),
          True := fun _ _ => trivial
      have hmapped : ((List.range' 0 (numChunks bs)).map
          (fun j => chunkHeader msgId j (numChunks bs) ++ (bs.drop (j * 1408)).take 1408)).map
            (fun d => d.drop 12) =
          (List.range' 0 (numChunks bs)).map (fun j => (bs.drop (j * 1408)).take 1408) := by
        rw [List.map_map]
        refine List.map_congr_left ?_
        intro j _
        simp only [Function.comp_apply]
        rw [drop_append_len12 _ _ (chunkHeader_length msgId j (numChunks bs) h8)]
      rw [hmapped]
      have hjoin : ∀ k i, bs.length ≤ (i + k) * 1408 →
          ((List.range' i k).map (fun j => (bs.drop (j * 1408)).take 1408)).flatten =
          bs.drop (i * 1408) := by
        intro k
        induction k with
        | zero =>
          intro i h
          simp [List.drop_eq_nil_of_le (by omega : bs.length ≤ i * 1408)]
        | succ k ih =>
          intro i h
          rw [List.range'_succ, List.map_cons, List.flatten_cons, ih (i + 1) (by omega)]
          rw [show (i + 1) * 1408 = i * 1408 + 1408 by ring, ← List.drop_drop]
          exact List.take_append_drop 1408 (bs.drop (i * 1408))
      have hj0 := hjoin (numChunks bs) 0 (by omega)
      simpa using hj0
  · intro hgt
    unfold udpWrite
    simp [show 255 < numChunks bs from hgt]

/-- Witness for C1 at a concrete oversized payload: 2817 bytes need 3
chunks. -/
theorem udp_write_chunk_layout_witness :
    (List.replicate 8 171 : List Nat).length = 8 ∧
    ((List.replicate 2817 5 : List Nat).length ≤ 1420 →
      udpWrite (List.replicate 8 171) (List.replicate 2817 5) =
        ([List.replicate 2817 5], none)) ∧
    (1420 < (List.replicate 2817 5 : List Nat).length →
      numChunks (List.replicate 2817 5) ≤ 255 →
      numChunks (List.replicate 2817 5) =
        ((List.replicate 2817 5 : List Nat).length + 1407) / 1408 ∧
      (udpWrite (List.replicate 8 171) (List.replicate 2817 5)).2 = none ∧
      (udpWrite (List.replicate 8 171) (List.replicate 2817 5)).1.length =
        numChunks (List.replicate 2817 5) ∧
      (∀ j, (hj : j < (udpWrite (List.replicate 8 171) (List.replicate 2817 5)).1.length) →
        ((udpWrite (List.replicate 8 171) (List.replicate 2817 5)).1.get ⟨j, hj⟩).length ≤ 1420 ∧
        ((udpWrite (List.replicate 8 171) (List.replicate 2817 5)).1.get ⟨j, hj⟩).take 12 =
          0x1e :: 0x0f :: List.replicate 8 171 ++ [j, numChunks (List.replicate 2817 5)] ∧
        ((udpWrite (List.replicate 8 171) (List.replicate 2817 5)).1.get ⟨j, hj⟩).drop 12 =
          ((List.replicate 2817 5 : List Nat).drop (j * 1408)).take 1408) ∧
      ((udpWrite (List.replicate 8 171) (List.replicate 2817 5)).1.map
        (fun d => d.drop 12)).flatten = List.replicate 2817 5) ∧
    (255 < numChunks (List.replicate 2817 5) →
      udpWrite (List.replicate 8 171) (List.replicate 2817 5) = ([], some "msg too large")) :=
  ⟨by simp, udp_write_chunk_layout (List.replicate 8 171) (List.replicate 2817 5) (by simp)⟩

/-! ### C3: TCP send / reconnect. -/

theorem tcpReconnectLoop_unbounded (dials : List Bool) (h : true ∈ dials) :
    ∀ cc : Int,
      (tcpReconnectLoop (-1) cc dials).2 = some true ∧
      (tcpReconnectLoop (-1) cc dials).1.count TcpEvent.closeConn = 0 ∧
      (∀ b, (tcpReconnectLoop (-1) cc dials).1.count (TcpEvent.wrote b) = 0) ∧
      (tcpReconnectLoop (-1) cc dials).1.count (TcpEvent.dialed true) = 1 ∧
      (tcpReconnectLoop (-1) cc dials).1.count (TcpEvent.dialed false) =
        (dials.takeWhile (fun d => !d)).length ∧
      (tcpReconnectLoop (-1) cc dials).1.count TcpEvent.slept =
        (dials.takeWhile (fun d => !d)).length := by
  induction dials with
  | nil => cases h
  | cons d rest ih =>
    intro cc
    by_cases hd : d = true
    · subst hd
      simp [tcpReconnectLoop]
    · have hd' : d = false := by simpa using hd
      subst hd'
      have hrest : true ∈ rest := by simpa using h
      have ihc := ih hrest (cc + 1)
      simp only [tcpReconnectLoop, if_false, Bool.false_eq_true,
        show ¬((-1 : Int) ≠ -1 ∧ (-1 : Int) ≤ cc + 1) by simp]
      refine ⟨ihc.1, ?_, ?_, ?_, ?_, ?_⟩
      · simp [List.count_cons, ihc.2.1]
      · intro b
        simp [List.count_cons, ihc.2.2.1 b]
      · simp [List.count_cons, ihc.2.2.2.1]
      · simp [List.count_cons, List.takeWhile, ihc.2.2.2.2.1]
      · simp [List.count_cons, List.takeWhile, ihc.2.2.2.2.2]

/-- C3 (counterexample): at the concrete trace where the first write
fails with a network error, the first dial succeeds, and the retried
write succeeds, the cited `tcpReconnect`/`SendMessage` pair performs no
`conn.Close()` call at all — the claim's "closes the broken connection"
does not happen (the broken connection is merely overwritten by the
newly dialed one). -/
theorem tcp_send_close_counterexample :
    tcpSendMessage false [true] true =
      ([TcpEvent.wrote false, TcpEvent.dialed true, TcpEvent.wrote true], some none) ∧
    (tcpSendMessage false [true] true).1.count TcpEvent.closeConn = 0 := by
  constructor <;> rfl

/-- C3 (amended): whenever a Send's write fails with a network error,
the transport leaves the broken connection unclosed (no close event
ever occurs), dials repeatedly — one sleep after each failed dial —
until a dial succeeds, then retries the original send exactly once
more (exactly two write attempts in total); the second write's result
is returned to the caller as is, and the run terminates (the transport
is ready for subsequent calls). -/
theorem tcp_send_reconnect_retry_once (w1 w2 : Bool) (dials : List Bool)
    (h : true ∈ dials) :
    (tcpSendMessage w1 dials w2).1.count TcpEvent.closeConn = 0 ∧
    (w1 = true → tcpSendMessage w1 dials w2 = ([TcpEvent.wrote true], some none)) ∧
    (w1 = false →
      (tcpSendMessage w1 dials w2).2 =
        some (if w2 then none else some "network error") ∧
      (tcpSendMessage w1 dials w2).1.count (TcpEvent.wrote true) +
        (tcpSendMessage w1 dials w2).1.count (TcpEvent.wrote false) = 2 ∧
      (tcpSendMessage w1 dials w2).1.count (TcpEvent.dialed true) = 1 ∧
      (tcpSendMessage w1 dials w2).1.count (TcpEvent.dialed false) =
        (dials.takeWhile (fun d => !d)).length ∧
      (tcpSendMessage w1 dials w2).1.count TcpEvent.slept =
        (dials.takeWhile (fun d => !d)).length) := by
  have hrec := tcpReconnectLoop_unbounded dials h 0
  have hrec' : tcpReconnect (-1) dials = tcpReconnectLoop (-1) 0 dials := by
    unfold tcpReconnect
    norm_num
  by_cases hw1 : w1 = true
  · subst hw1
    simp [tcpSendMessage]
  · have hw1' : w1 = false := by simpa using hw1
    subst hw1'
    have hsend : tcpSendMessage false dials w2 =
        (TcpEvent.wrote false :: (tcpReconnectLoop (-1) 0 dials).1 ++ [TcpEvent.wrote w2],
         some (if w2 then none else some "network error")) := by
      unfold tcpSendMessage
      rw [hrec']
      simp only [Bool.false_eq_true, if_false]
      rw [hrec.1]
    refine ⟨?_, ?_, ?_⟩
    · rw [hsend]
      simp only [List.count_cons, List.count_append]
      have h1 := hrec.2.1
      cases w2 <;> simp_all
    · intro hc
      exact absurd hc (by simp)
    · intro _
      refine ⟨by rw [hsend], ?_, ?_, ?_, ?_⟩
      · rw [hsend]
        simp only [List.count_cons, List.count_append]
        have hwt := hrec.2.2.1 true
        have hwf := hrec.2.2.1 false
        cases w2 <;> simp_all
      · rw [hsend]
        simp only [List.count_cons, List.count_append]
        have h1 := hrec.2.2.2.1
        cases w2 <;> simp_all
      · rw [hsend]
        simp only [List.count_cons, List.count_append]
        have h1 := hrec.2.2.2.2.1
        cases w2 <;> simp_all
      · rw [hsend]
        simp only [List.count_cons, List.count_append]
        have h1 := hrec.2.2.2.2.2
        cases w2 <;> simp_all

/-- Witness for the amended C3 at a concrete trace: first write fails,
the first dial fails, the second dial succeeds, the retried write fails
and its error is surfaced. -/
theorem tcp_send_reconnect_retry_once_witness :
    true ∈ [false, true] ∧
    ((tcpSendMessage false [false, true] false).1.count TcpEvent.closeConn = 0 ∧
    (false = true → tcpSendMessage false [false, true] false =
      ([TcpEvent.wrote true], some none)) ∧
    (false = false →
      (tcpSendMessage false [false, true] false).2 =
        some (if false then none else some "network error") ∧
      (tcpSendMessage false [false, true] false).1.count (TcpEvent.wrote true) +
        (tcpSendMessage false [false, true] false).1.count (TcpEvent.wrote false) = 2 ∧
      (tcpSendMessage false [false, true] false).1.count (TcpEvent.dialed true) = 1 ∧
      (tcpSendMessage false [false, true] false).1.count (TcpEvent.dialed false) =
        ([false, true].takeWhile (fun d => !d)).length ∧
      (tcpSendMessage false [false, true] false).1.count TcpEvent.slept =
        ([false, true].takeWhile (fun d => !d)).length)) :=
  ⟨by decide, tcp_send_reconnect_retry_once false false [false, true] (by decide)⟩

/-! ### C5: durable-queue push. -/

/-- C5 (counterexample): the go-redis durable-queue transport's
`SendMessage`, when the store rejects the push, returns that failure to
the caller after zero retries (the queue is unchanged and the error is
surfaced), contradicting "never surfaced to the caller". -/
theorem redis_send_error_surfaced :
    redisSendMessage emptyGELF false [] = ([], some "push failed") := rfl

/-- C5 (amended): the asynq-based durable-queue transport retries every
push failure after a one-second sleep, indefinitely, returns success
exactly when the store eventually accepts a push, and never returns an
error to the caller; the go-redis-based durable-queue transport instead
performs a single push and surfaces a push failure directly to the
caller. -/
theorem durable_queue_push_behavior :
    (∀ outcomes : List (Option String),
      (asynqSendLoop outcomes).1 = (outcomes.takeWhile Option.isSome).length ∧
      ((asynqSendLoop outcomes).2 = some none ↔ none ∈ outcomes) ∧
      (∀ e : String, (asynqSendLoop outcomes).2 ≠ some (some e))) ∧
    (∀ (m : GELFMessage) (q : List String),
      (redisSendMessage m false q).2 = some "push failed" ∧
      (redisSendMessage m false q).1 = q) := by
  constructor
  · intro outcomes
    induction outcomes with
    | nil => simp [asynqSendLoop]
    | cons o rest ih =>
      cases o with
      | none => simp [asynqSendLoop, List.takeWhile]
      | some e =>
        refine ⟨?_, ?_, ?_⟩
        · simp [asynqSendLoop, List.takeWhile, ih.1]
        · simp only [asynqSendLoop, ih.2.1.symm]
          simp [List.mem_cons]
          tauto
        · intro e'
          simp only [asynqSendLoop]
          exact ih.2.2 e'
  · intro m q
    exact ⟨rfl, rfl⟩

/-! ### C9: ObjectPool. -/

theorem poolGet_lt (capacity : Nat) (st : PoolState) (h : st.createdCount < capacity) :
    poolGet capacity st =
      ({ st with createdCount := st.createdCount + 1 }, .fresh st.createdCount) := by
  unfold poolGet
  rw [if_pos h]

theorem poolGet_ge_nil (capacity : Nat) (st : PoolState)
    (h : ¬ st.createdCount < capacity) (hi : st.items = []) :
    poolGet capacity st = (st, .blocked) := by
  unfold poolGet
  rw [if_neg h, hi]

theorem poolGet_ge_cons (capacity : Nat) (st : PoolState) (w : Nat) (rest : List Nat)
    (h : ¬ st.createdCount < capacity) (hi : st.items = w :: rest) :
    poolGet capacity st = ({ st with items := rest }, .pooled w) := by
  unfold poolGet
  rw [if_neg h, hi]

theorem poolGet_items_subset (capacity : Nat) (st : PoolState) :
    ∀ v, v ∈ (poolGet capacity st).1.items → v ∈ st.items := by
  intro v hv
  by_cases h : st.createdCount < capacity
  · rw [poolGet_lt capacity st h] at hv
    exact hv
  · cases heq : st.items with
    | nil =>
      rw [poolGet_ge_nil capacity st h heq] at hv
      have hv' : v ∈ st.items := hv
      rw [heq] at hv'
      exact hv'
    | cons w rest =>
      rw [poolGet_ge_cons capacity st w rest h heq] at hv
      have hv' : v ∈ rest := hv
      exact List.mem_cons_of_mem w hv'

theorem pool_pooled_from_put (capacity : Nat) (ops : List PoolOp) :
    ∀ st pre v post,
      (poolRun capacity st ops).1 = pre ++ PoolEvent.got (GetRes.pooled v) :: post →
      v ∈ st.items ∨ PoolEvent.putEv v ∈ pre := by
  induction ops with
  | nil =>
    intro st pre v post h
    simp only [poolRun] at h
    cases pre <;> simp_all
  | cons op ops ih =>
    intro st pre v post h
    cases op with
    | get =>
      simp only [poolRun] at h
      cases pre with
      | nil =>
        simp only [List.nil_append, List.cons.injEq] at h
        obtain ⟨h1, _⟩ := h
        left
        by_cases hc : st.createdCount < capacity
        · rw [poolGet_lt capacity st hc] at h1
          simp at h1
        · cases heq : st.items with
          | nil =>
            rw [poolGet_ge_nil capacity st hc heq] at h1
            simp at h1
          | cons w rest =>
            rw [poolGet_ge_cons capacity st w rest hc heq] at h1
            simp only [PoolEvent.got.injEq, GetRes.pooled.injEq] at h1
            rw [h1]
            exact List.mem_cons_self v rest
      | cons e pre' =>
        simp only [List.cons_append, List.cons.injEq] at h
        rcases ih (poolGet capacity st).1 pre' v post h.2 with hin | hput
        · left
          exact poolGet_items_subset capacity st v hin
        · right
          exact List.mem_cons_of_mem e hput
    | put w =>
      simp only [poolRun] at h
      cases pre with
      | nil =>
        simp only [List.nil_append, List.cons.injEq] at h
        cases h.1
      | cons e pre' =>
        simp only [List.cons_append, List.cons.injEq] at h
        rcases ih (poolPut st w) pre' v post h.2 with hin | hput
        · unfold poolPut at hin
          simp only [List.mem_append, List.mem_singleton] at hin
          rcases hin with hin | rfl
          · left
            exact hin
          · right
            rw [← h.1]
            exact List.mem_cons_self _ pre'
        · right
          exact List.mem_cons_of_mem e hput

theorem pool_fresh_bounded (capacity : Nat) (ops : List PoolOp) :
    ∀ st, (poolRun capacity st ops).1.countP isFreshEvent ≤ capacity - st.createdCount := by
  induction ops with
  | nil =>
    intro st
    simp [poolRun]
  | cons op ops ih =>
    intro st
    cases op with
    | get =>
      by_cases hc : st.createdCount < capacity
      · have h2 : (poolRun capacity { st with createdCount := st.createdCount + 1 }
            ops).1.countP isFreshEvent ≤ capacity - (st.createdCount + 1) :=
          ih { st with createdCount := st.createdCount + 1 }
        simp only [poolRun, List.countP_cons, poolGet_lt capacity st hc, isFreshEvent]
        simp only [if_pos]
        omega
      · cases heq : st.items with
        | nil =>
          have h2 : (poolRun capacity st ops).1.countP isFreshEvent ≤
              capacity - st.createdCount := ih st
          simp only [poolRun, List.countP_cons, poolGet_ge_nil capacity st hc heq,
            isFreshEvent]
          simp
          omega
        | cons w rest =>
          have h2 : (poolRun capacity { st with items := rest } ops).1.countP isFreshEvent ≤
              capacity - st.createdCount := ih { st with items := rest }
          simp only [poolRun, List.countP_cons, poolGet_ge_cons capacity st w rest hc heq,
            isFreshEvent]
          simp
          omega
    | put w =>
      have h2 : (poolRun capacity (poolPut st w) ops).1.countP isFreshEvent ≤
          capacity - st.createdCount := ih (poolPut st w)
      simp only [poolRun, List.countP_cons, isFreshEvent]
      simp
      omega

/-- C9: for every constructed pool capacity and every operation
sequence, the events of a run from the initial state contain at most
`capacity` successful factory creations, and every `Get` answered from
the pool returns an object that an earlier `Put` handed back. -/
theorem object_pool_capacity (capacity : Int) (ops : List PoolOp) :
    (poolRun (newPoolCapacity capacity) initPool ops).1.countP isFreshEvent ≤
      newPoolCapacity capacity ∧
    (∀ pre v post,
      (poolRun (newPoolCapacity capacity) initPool ops).1 =
        pre ++ PoolEvent.got (GetRes.pooled v) :: post →
      PoolEvent.putEv v ∈ pre) := by
  constructor
  · have := pool_fresh_bounded (newPoolCapacity capacity) ops initPool
    simpa [initPool] using this
  · intro pre v post h
    rcases pool_pooled_from_put (newPoolCapacity capacity) ops initPool pre v post h with
      hin | hput
    · simp [initPool] at hin
    · exact hput

/-- Witness for C9: capacity 1, a Get creating object 0, a Put of
object 5, and a Get served from the pool. -/
theorem object_pool_capacity_witness :
    (poolRun (newPoolCapacity 1) initPool [PoolOp.get, PoolOp.put 5, PoolOp.get]).1 =
      [PoolEvent.got (GetRes.fresh 0), PoolEvent.putEv 5] ++
        PoolEvent.got (GetRes.pooled 5) :: [] ∧
    PoolEvent.putEv 5 ∈ [PoolEvent.got (GetRes.fresh 0), PoolEvent.putEv 5] := by
  constructor
  · decide
  · exact (object_pool_capacity 1 [PoolOp.get, PoolOp.put 5, PoolOp.get]).2
      [PoolEvent.got (GetRes.fresh 0), PoolEvent.putEv 5] 5 [] (by decide)

/-! ### C7: the short/full message split. -/

theorem dropWhile_head_not (p : Char → Bool) (l : List Char) :
    ∀ c, (l.dropWhile p).head? = some c → p c = false := by
  induction l with
  | nil => intro c h; cases h
  | cons c0 rest ih =>
    intro c h
    by_cases hp : p c0
    · rw [List.dropWhile_cons_of_pos hp] at h
      exact ih c h
    · rw [List.dropWhile_cons_of_neg hp] at h
      simp only [List.head?_cons, Option.some.injEq] at h
      rw [← h]
      simpa using hp

theorem trimSpace_head_not_space (l : List Char) :
    ∀ c, (trimSpace l).head? = some c → goIsSpace c = false := by
  intro c h
  unfold trimSpace at h
  obtain ⟨t, ht⟩ := List.rdropWhile_prefix goIsSpace (l.dropWhile goIsSpace)
  have hhead : (l.dropWhile goIsSpace).head? = some c := by
    rw [← ht]
    cases hcase : (l.dropWhile goIsSpace).rdropWhile goIsSpace with
    | nil =>
      rw [hcase] at h
      cases h
    | cons x xs =>
      rw [hcase] at h
      simp only [List.head?_cons, Option.some.injEq] at h
      simp [h]
  exact dropWhile_head_not goIsSpace l c hhead

theorem takeWhile_eq_self_of_all (p : Char → Bool) (l : List Char)
    (h : ∀ x ∈ l, p x = true) : l.takeWhile p = l := by
  induction l with
  | nil => rfl
  | cons a l ih =>
    rw [List.takeWhile_cons_of_pos (h a (List.mem_cons_self a l)),
      ih (fun x hx => h x (List.mem_cons_of_mem a hx))]

theorem indexOfChar_none_iff (c : Char) (l : List Char) :
    indexOfChar c l = none ↔ c ∉ l := by
  induction l with
  | nil => simp [indexOfChar]
  | cons c0 rest ih =>
    by_cases hc : c0 = c
    · subst hc
      simp [indexOfChar]
    · simp only [indexOfChar, if_neg hc, List.mem_cons]
      constructor
      · intro h hmem
        rcases hmem with rfl | hmem
        · exact hc rfl
        · exact (ih.mp (by simpa using h)) hmem
      · intro h
        have : c ∉ rest := fun hm => h (Or.inr hm)
        rw [ih.mpr this]
        rfl

theorem indexOfChar_take (c : Char) (l : List Char) :
    ∀ i, indexOfChar c l = some i → l.take i = l.takeWhile (fun x => x ≠ c) := by
  induction l with
  | nil => intro i h; cases h
  | cons c0 rest ih =>
    intro i h
    by_cases hc : c0 = c
    · subst hc
      simp only [indexOfChar, if_true, eq_self_iff_true, Option.some.injEq] at h
      have hi : i = 0 := by omega
      subst hi
      simp
    · simp only [indexOfChar, if_neg hc] at h
      cases hrec : indexOfChar c rest with
      | none =>
        rw [hrec] at h
        simp at h
      | some j =>
        rw [hrec] at h
        simp only [Option.map_some'] at h
        have hi : i = j + 1 := by
          injection h with h'
          omega
        subst hi
        rw [List.take_succ_cons, List.takeWhile_cons_of_pos (by simpa using hc), ih j hrec]

/-- C7 (counterexample): for the message text `"hello\nworld "`
(trailing blank), the code yields full message `"hello\nworld"` — the
trimmed text — and not the full original text as the claim states. -/
theorem short_full_counterexample :
    shortFull "hello\nworld " = ("hello", "hello\nworld") ∧
    ("hello\nworld" : String) ≠ "hello\nworld " := by
  constructor
  · rfl
  · decide

/-- C7 (amended): `sendEntry` first trims leading and trailing Unicode
white space from the message text, then splits the trimmed text on its
first newline: the text before that newline becomes the short message
and the whole trimmed text becomes the full message, the full message
being set only when the trimmed text contains a newline and empty
otherwise; in particular `"hello\nworld"` yields short `"hello"` and
full `"hello\nworld"`. -/
theorem send_entry_short_full (msg : String) :
    shortFull msg =
      (⟨(trimSpace msg.data).takeWhile (fun c => c ≠ '\n')⟩,
       if '\n' ∈ trimSpace msg.data then (⟨trimSpace msg.data⟩ : String) else "") ∧
    shortFull "hello\nworld" = ("hello", "hello\nworld") := by
  refine ⟨?_, by rfl⟩
  unfold shortFull
  cases hidx : indexOfChar '\n' (trimSpace msg.data) with
  | none =>
    have hnot : '\n' ∉ trimSpace msg.data := (indexOfChar_none_iff _ _).mp hidx
    have htake : (trimSpace msg.data).takeWhile (fun c => c ≠ '\n') = trimSpace msg.data := by
      refine takeWhile_eq_self_of_all _ _ ?_
      intro x hx
      simp only [ne_eq, decide_eq_true_eq]
      intro hEq
      exact hnot (hEq ▸ hx)
    simp only [hidx]
    rw [htake, if_neg hnot]
  | some i =>
    have hmem : '\n' ∈ trimSpace msg.data := by
      by_contra hnot
      rw [(indexOfChar_none_iff _ _).mpr hnot] at hidx
      cases hidx
    have hpos : 0 < i := by
      cases hcase : trimSpace msg.data with
      | nil => rw [hcase] at hidx; cases hidx
      | cons c0 rest =>
        have hc0 : goIsSpace c0 = false :=
          trimSpace_head_not_space msg.data c0 (by rw [hcase]; rfl)
        have hc0n : c0 ≠ '\n' := by
          intro hEq
          rw [hEq] at hc0
          have hsp : goIsSpace '\n' = true := by decide
          rw [hsp] at hc0
          cases hc0
        rw [hcase] at hidx
        simp only [indexOfChar, if_neg hc0n] at hidx
        cases hrec : indexOfChar '\n' rest with
        | none =>
          rw [hrec] at hidx
          simp at hidx
        | some j =>
          rw [hrec] at hidx
          simp only [Option.map_some'] at hidx
          injection hidx with h'
          omega
    simp only [hidx]
    rw [if_pos hpos, if_pos hmem, indexOfChar_take '\n' (trimSpace msg.data) i hidx]

/-! ### C6: the serialized form is one flat JSON object. -/

theorem joinComma_append (xs ys : List (List Char)) (hx : xs ≠ []) (hy : ys ≠ []) :
    joinComma (xs ++ ys) = joinComma xs ++ ',' :: joinComma ys := by
  induction xs with
  | nil => exact absurd rfl hx
  | cons x xs ih =>
    cases xs with
    | nil =>
      cases ys with
      | nil => exact absurd rfl hy
      | cons y ys' => simp [joinComma]
    | cons x2 xs2 =>
      have ih' := ih (by simp)
      simp only [List.cons_append] at ih' ⊢
      rw [show joinComma (x :: x2 :: (xs2 ++ ys)) = x ++ ',' :: joinComma (x2 :: (xs2 ++ ys))
          from rfl,
        show joinComma (x :: x2 :: xs2) = x ++ ',' :: joinComma (x2 :: xs2) from rfl,
        ih']
      simp

theorem renderFields_append (ps qs : List (String × Json)) :
    renderFields (ps ++ qs) = renderFields ps ++ renderFields qs := by
  induction ps with
  | nil => rfl
  | cons kv ps ih =>
    cases kv with
    | mk k v =>
      simp only [List.cons_append, renderFields]
      exact congrArg _ ih

theorem renderFields_ne_nil (ps : List (String × Json)) (h : ps ≠ []) :
    renderFields ps ≠ [] := by
  cases ps with
  | nil => exact absurd rfl h
  | cons kv rest =>
    cases kv with
    | mk k v => simp [renderFields]

theorem sortPairs_perm (l : List (String × Json)) : List.Perm (sortPairs l) l :=
  List.perm_insertionSort _ l

theorem sortPairs_ne_nil (l : List (String × Json)) (h : l ≠ []) : sortPairs l ≠ [] := by
  intro hnil
  have hp := sortPairs_perm l
  rw [hnil] at hp
  exact h (hp.symm.eq_nil)

/-- C6: `MarshalJSON` produces exactly the rendering of one flat JSON
object whose members are the nine fixed fields followed by the Extra
members — every extension key sits at the same object level as the
structured fields, never nested under a sub-object. -/
theorem marshal_is_flat_object (m : GELFMessage) :
    m.marshalJSON = renderObj m.marshalPairs := by
  unfold GELFMessage.marshalJSON GELFMessage.marshalPairs innerMarshal
  by_cases he : m.extra.isEmpty
  · have hnil : m.extra = [] := List.isEmpty_iff.mp he
    rw [if_pos he, hnil]
    rfl
  · rw [if_neg he]
    have hexne : m.extra ≠ [] := by
      intro h
      rw [h] at he
      exact he rfl
    have hsne : sortPairs m.extra ≠ [] := sortPairs_ne_nil m.extra hexne
    have hfne : m.fixedPairs ≠ [] := by simp [GELFMessage.fixedPairs]
    unfold renderObj
    rw [renderFields_append,
      joinComma_append _ _ (renderFields_ne_nil _ hfne) (renderFields_ne_nil _ hsne)]
    rw [← List.cons_append, List.dropLast_concat]
    simp

/-! ### Association-list lemmas shared by the codec claims. -/

theorem assocLookup_update_self (k : String) (v : Json) (l : List (String × Json)) :
    assocLookup k (assocUpdate k v l) = some v := by
  induction l with
  | nil => simp [assocUpdate, assocLookup]
  | cons kv rest ih =>
    cases kv with
    | mk k' v' =>
      by_cases h : k' = k
      · subst h
        simp [assocUpdate, assocLookup]
      · simp [assocUpdate, assocLookup, h, ih]

theorem assocLookup_update_ne (k K : String) (v : Json) (l : List (String × Json))
    (h : k ≠ K) :
    assocLookup K (assocUpdate k v l) = assocLookup K l := by
  induction l with
  | nil => simp [assocUpdate, assocLookup, h]
  | cons kv rest ih =>
    cases kv with
    | mk k' v' =>
      by_cases h1 : k' = k
      · subst h1
        simp [assocUpdate, assocLookup, h]
      · by_cases h2 : k' = K
        · subst h2
          simp [assocUpdate, assocLookup, h1]
        · simp [assocUpdate, assocLookup, h1, h2, ih]

theorem assocUpdate_cons_eq (k : String) (v : Json) (k' : String) (v' : Json)
    (rest : List (String × Json)) (h : k' = k) :
    assocUpdate k v ((k', v') :: rest) = (k, v) :: rest := by
  unfold assocUpdate
  rw [if_pos h]

theorem assocUpdate_cons_ne (k : String) (v : Json) (k' : String) (v' : Json)
    (rest : List (String × Json)) (h : k' ≠ k) :
    assocUpdate k v ((k', v') :: rest) = (k', v') :: assocUpdate k v rest := by
  simp only [assocUpdate]
  rw [if_neg h]

theorem assocLookup_cons_eq (K : String) (k' : String) (v' : Json)
    (rest : List (String × Json)) (h : k' = K) :
    assocLookup K ((k', v') :: rest) = some v' := by
  unfold assocLookup
  rw [if_pos h]

theorem assocLookup_cons_ne (K : String) (k' : String) (v' : Json)
    (rest : List (String × Json)) (h : k' ≠ K) :
    assocLookup K ((k', v') :: rest) = assocLookup K rest := by
  simp only [assocLookup]
  rw [if_neg h]

theorem mem_assocUpdate (k : String) (v : Json) (l : List (String × Json)) :
    ∀ p ∈ assocUpdate k v l, p.1 = k ∨ p ∈ l := by
  induction l with
  | nil =>
    intro p hp
    simp only [assocUpdate, List.mem_singleton] at hp
    left
    rw [hp]
  | cons kv rest ih =>
    intro p hp
    cases kv with
    | mk k' v' =>
      by_cases h : k' = k
      · rw [assocUpdate_cons_eq k v k' v' rest h] at hp
        rcases List.mem_cons.mp hp with rfl | hp
        · left; rfl
        · right; exact List.mem_cons_of_mem _ hp
      · rw [assocUpdate_cons_ne k v k' v' rest h] at hp
        rcases List.mem_cons.mp hp with rfl | hp
        · right; exact List.mem_cons_self _ _
        · rcases ih p hp with h1 | h1
          · left; exact h1
          · right; exact List.mem_cons_of_mem _ h1

theorem assocLookup_eq_none (K : String) (l : List (String × Json))
    (h : K ∉ l.map Prod.fst) : assocLookup K l = none := by
  induction l with
  | nil => rfl
  | cons kv rest ih =>
    cases kv with
    | mk k' v' =>
      simp only [List.map_cons, List.mem_cons] at h
      push_neg at h
      rw [assocLookup_cons_ne K k' v' rest (Ne.symm h.1), ih h.2]

theorem keys_nodup_assocUpdate (k : String) (v : Json) (l : List (String × Json))
    (h : (l.map Prod.fst).Nodup) :
    ((assocUpdate k v l).map Prod.fst).Nodup := by
  induction l with
  | nil => simp [assocUpdate]
  | cons kv rest ih =>
    cases kv with
    | mk k' v' =>
      simp only [List.map_cons, List.nodup_cons] at h
      by_cases hk : k' = k
      · subst hk
        rw [assocUpdate_cons_eq k' v k' v' rest rfl]
        simp only [List.map_cons, List.nodup_cons]
        exact h
      · rw [assocUpdate_cons_ne k v k' v' rest hk]
        simp only [List.map_cons, List.nodup_cons]
        refine ⟨?_, ih h.2⟩
        intro hmem
        simp only [List.mem_map] at hmem
        obtain ⟨p, hp, hpk⟩ := hmem
        rcases mem_assocUpdate k v rest p hp with h1 | h1
        · exact hk (by rw [← hpk, h1])
        · exact h.1 (by
            simp only [List.mem_map]
            exact ⟨p, h1, hpk⟩)

theorem lookup_foldl_update (l : List (String × Json)) :
    ∀ (base : List (String × Json)) (K : String), (l.map Prod.fst).Nodup →
      assocLookup K (l.foldl (fun acc kv => assocUpdate kv.1 kv.2 acc) base) =
        (match assocLookup K l with
          | some v => some v
          | none => assocLookup K base) := by
  induction l with
  | nil =>
    intro base K _
    rfl
  | cons kv rest ih =>
    intro base K hnd
    cases kv with
    | mk k0 v0 =>
      simp only [List.map_cons, List.nodup_cons] at hnd
      rw [List.foldl_cons]
      rw [ih (assocUpdate k0 v0 base) K hnd.2]
      by_cases hK : k0 = K
      · subst hK
        have hrest : assocLookup k0 rest = none :=
          assocLookup_eq_none k0 rest hnd.1
        rw [hrest, assocLookup_cons_eq k0 k0 v0 rest rfl]
        exact assocLookup_update_self k0 v0 base
      · rw [assocLookup_cons_ne K k0 v0 rest hK]
        cases hr : assocLookup K rest with
        | some v => rfl
        | none => exact assocLookup_update_ne k0 K v0 base hK

theorem underscore_append_inj (a b : String) (h : "_" ++ a = "_" ++ b) : a = b := by
  have hd := congrArg String.data h
  simp [String.data_append] at hd
  ext1
  exact hd

theorem underscore_append_head (s : String) : ("_" ++ s).data.head? = some '_' := by
  rw [String.data_append]
  rfl

theorem underscoreFold_cons (k : String) (v : Json) (l acc : List (String × Json)) :
    underscoreFold ((k, v) :: l) acc = underscoreFold l (assocUpdate ("_" ++ k) v acc) :=
  rfl

theorem underscoreFold_keys (l : List (String × Json)) :
    ∀ acc, (∀ p ∈ acc, p.1.data.head? = some '_') →
      ∀ p ∈ underscoreFold l acc, p.1.data.head? = some '_' := by
  induction l with
  | nil =>
    intro acc hacc p hp
    exact hacc p hp
  | cons kv rest ih =>
    intro acc hacc p hp
    cases kv with
    | mk k v =>
      rw [underscoreFold_cons] at hp
      refine ih (assocUpdate ("_" ++ k) v acc) ?_ p hp
      intro q hq
      rcases mem_assocUpdate ("_" ++ k) v acc q hq with h1 | h1
      · rw [h1]
        exact underscore_append_head k
      · exact hacc q h1

theorem underscoreFold_keys_nodup (l : List (String × Json)) :
    ∀ acc, ((acc.map Prod.fst).Nodup) →
      ((underscoreFold l acc).map Prod.fst).Nodup := by
  induction l with
  | nil =>
    intro acc hacc
    exact hacc
  | cons kv rest ih =>
    intro acc hacc
    cases kv with
    | mk k v =>
      rw [underscoreFold_cons]
      exact ih _ (keys_nodup_assocUpdate ("_" ++ k) v acc hacc)

theorem lookup_underscoreFold_notin (l : List (String × Json)) (K : String) :
    ∀ acc, (∀ p ∈ l, "_" ++ p.1 ≠ K) →
      assocLookup K (underscoreFold l acc) = assocLookup K acc := by
  induction l with
  | nil =>
    intro acc _
    rfl
  | cons kv rest ih =>
    intro acc h
    cases kv with
    | mk k v =>
      rw [underscoreFold_cons]
      rw [ih _ (fun p hp => h p (List.mem_cons_of_mem _ hp))]
      exact assocLookup_update_ne ("_" ++ k) K v acc (h (k, v) (List.mem_cons_self _ _))

theorem lookup_underscoreFold (l : List (String × Json))
    (hnd : (l.map Prod.fst).Nodup) :
    ∀ acc k v, assocLookup k l = some v →
      assocLookup ("_" ++ k) (underscoreFold l acc) = some v := by
  induction l with
  | nil =>
    intro acc k v h
    cases h
  | cons kv rest ih =>
    intro acc k v h
    cases kv with
    | mk k0 v0 =>
      simp only [List.map_cons, List.nodup_cons] at hnd
      rw [underscoreFold_cons]
      by_cases hk : k0 = k
      · subst hk
        rw [assocLookup_cons_eq k0 k0 v0 rest rfl] at h
        injection h with h
        subst h
        rw [lookup_underscoreFold_notin rest ("_" ++ k0) _ ?_]
        · exact assocLookup_update_self ("_" ++ k0) _ acc
        · intro p hp hEq
          have hpk : p.1 = k0 := underscore_append_inj p.1 k0 hEq
          exact hnd.1 (by
            simp only [List.mem_map]
            exact ⟨p, hp, hpk⟩)
      · rw [assocLookup_cons_ne k k0 v0 rest hk] at h
        exact ih hnd.2 _ k v h

theorem assocLookup_perm (l l' : List (String × Json)) (h : List.Perm l l') :
    ∀ K, (l.map Prod.fst).Nodup → assocLookup K l = assocLookup K l' := by
  induction h with
  | nil =>
    intro K _
    rfl
  | cons p h ih =>
    intro K hnd
    cases p with
    | mk pk pv =>
      simp only [List.map_cons, List.nodup_cons] at hnd
      by_cases hK : pk = K
      · simp [assocLookup, hK]
      · simp only [assocLookup, if_neg hK]
        exact ih K hnd.2
  | swap x y l =>
    intro K hnd
    cases x with
    | mk xk xv =>
      cases y with
      | mk yk yv =>
        simp only [List.map_cons, List.nodup_cons, List.mem_cons] at hnd
        have hne : yk ≠ xk := fun hEq => hnd.1 (Or.inl hEq)
        by_cases h1 : yk = K
        · subst h1
          simp [assocLookup, Ne.symm hne]
        · by_cases h2 : xk = K
          · subst h2
            simp [assocLookup, h1]
          · simp [assocLookup, h1, h2]
  | trans h₁ h₂ ih₁ ih₂ =>
    intro K hnd
    rw [ih₁ K hnd, ih₂ K ((h₁.map Prod.fst).nodup_iff.mp hnd)]

/-! ### Unmarshal lemmas. -/

theorem goFloatToInt_intCast (l : Int) : goFloatToInt ((l : Rat)) = l := by
  unfold goFloatToInt
  rw [Rat.num_intCast, Rat.den_intCast]
  simp [Int.tdiv_one]

theorem unmarshalStep_underscore (m : GELFMessage) (k : String) (v : Json)
    (h : k.data.head? = some '_') :
    unmarshalStep m k v = .next { m with extra := assocUpdate k v m.extra } := by
  cases hk : k.data with
  | nil =>
    rw [hk] at h
    cases h
  | cons c t =>
    rw [hk] at h
    simp only [List.head?_cons, Option.some.injEq] at h
    subst h
    unfold unmarshalStep
    rw [hk]
    rfl

theorem unmarshalStep_empty_key (m : GELFMessage) (v : Json) :
    unmarshalStep m "" v =
      .panicked "runtime error: index out of range [0] with length 0" := rfl

theorem unmarshalFold_underscoreAll (pairs : List (String × Json))
    (h : ∀ p ∈ pairs, p.1.data.head? = some '_') :
    ∀ m, unmarshalFold m pairs =
      .ok { m with
        extra := pairs.foldl (fun acc kv => assocUpdate kv.1 kv.2 acc) m.extra } := by
  induction pairs with
  | nil =>
    intro m
    rfl
  | cons kv rest ih =>
    intro m
    cases kv with
    | mk k v =>
      simp only [unmarshalFold]
      rw [unmarshalStep_underscore m k v (h (k, v) (List.mem_cons_self _ _))]
      dsimp only
      rw [ih (fun p hp => h p (List.mem_cons_of_mem _ hp))]
      rfl

theorem unmarshalFold_fixedPairs (m m0 : GELFMessage) (rest : List (String × Json)) :
    unmarshalFold m0 (m.fixedPairs ++ rest) =
      unmarshalFold
        { version := m.version, host := m.host, short := m.short, full := m.full,
          timeUnix := m.timeUnix, level := goFloatToInt ((m.level : Rat)),
          facility := m.facility, line := goFloatToInt ((m.line : Rat)),
          file := m.file, extra := m0.extra } rest := rfl

theorem unmarshalStep_wrongTyped (m : GELFMessage) (k : String) (v : Json)
    (hw : wrongTyped k v = true) :
    unmarshalStep m k v = .panicked "interface conversion" := by
  unfold wrongTyped isStringField isNumberField at hw
  simp only [Bool.or_eq_true, Bool.and_eq_true, beq_iff_eq,
    Option.isNone_iff_eq_none] at hw
  rcases hw with ⟨hk, hv⟩ | ⟨hk, hv⟩
  · rcases hk with ((((rfl | rfl) | rfl) | rfl) | rfl) | rfl <;>
      cases v <;> first
      | rfl
      | exact absurd hv (by simp [asString])
  · rcases hk with (rfl | rfl) | rfl <;>
      cases v <;> first
      | rfl
      | exact absurd hv (by simp [asNumber])

theorem unmarshalFold_panic_of_mem (pairs : List (String × Json)) (k : String) (v : Json)
    (hmem : (k, v) ∈ pairs)
    (hstep : ∀ m : GELFMessage, ∃ e, unmarshalStep m k v = StepRes.panicked e) :
    ∀ m, ∃ e, unmarshalFold m pairs = UnmarshalResult.panicked e := by
  induction pairs with
  | nil => cases hmem
  | cons kv rest ih =>
    intro m
    cases kv with
    | mk k0 v0 =>
      rcases List.mem_cons.mp hmem with heq | hmem'
      · injection heq with h1 h2
        subst h1
        subst h2
        obtain ⟨e, he⟩ := hstep m
        refine ⟨e, ?_⟩
        simp only [unmarshalFold]
        rw [he]
      · simp only [unmarshalFold]
        cases hs : unmarshalStep m k0 v0 with
        | next m2 => exact ih hmem' m2
        | panicked e => exact ⟨e, rfl⟩

/-! ### C2: encode/decode round trip. -/

/-- C2: for every log record (severity level, message text, custom
field mapping with distinct keys) decoding the serialized encoding
reproduces the record's syslog severity, its short/full message split,
and every custom field, recoverable from the extension mapping under
its underscore-prefixed key. -/
theorem encode_decode_roundtrip (host : String) (now : Rat)
    (hookExtra : List (String × Json)) (e : GelfEntry) (k : String) (v : Json)
    (hnd : (e.data.map Prod.fst).Nodup)
    (hkv : assocLookup k e.data = some v) :
    ∃ m', unmarshalPairs (sendEntry host now hookExtra e).marshalPairs =
        UnmarshalResult.ok m' ∧
      m'.level = logrusLevelToSyslog e.level ∧
      m'.short = (shortFull e.message).1 ∧
      m'.full = (shortFull e.message).2 ∧
      assocLookup ("_" ++ k) m'.extra = some v := by
  have hacc0 : ∀ p ∈ underscoreFold hookExtra ([] : List (String × Json)),
      p.1.data.head? = some '_' :=
    underscoreFold_keys hookExtra [] (by intro p hp; cases hp)
  have hC : ∀ p ∈ assocUpdate "_caller_function" (Json.str e.function)
      (assocUpdate "_caller_line" (Json.num (e.line : Rat))
        (assocUpdate "_caller_file" (Json.str e.file)
          (underscoreFold hookExtra []))),
      p.1.data.head? = some '_' := by
    intro p hp
    rcases mem_assocUpdate _ _ _ p hp with h1 | hp
    · rw [h1]; rfl
    rcases mem_assocUpdate _ _ _ p hp with h1 | hp
    · rw [h1]; rfl
    rcases mem_assocUpdate _ _ _ p hp with h1 | hp
    · rw [h1]; rfl
    exact hacc0 p hp
  have hex : (sendEntry host now hookExtra e).extra =
      underscoreFold e.data
        (assocUpdate "_caller_function" (Json.str e.function)
          (assocUpdate "_caller_line" (Json.num (e.line : Rat))
            (assocUpdate "_caller_file" (Json.str e.file)
              (underscoreFold hookExtra [])))) := rfl
  have hkeys : ∀ p ∈ (sendEntry host now hookExtra e).extra,
      p.1.data.head? = some '_' := by
    rw [hex]
    exact underscoreFold_keys e.data _ hC
  have hnodup : (((sendEntry host now hookExtra e).extra).map Prod.fst).Nodup := by
    rw [hex]
    refine underscoreFold_keys_nodup e.data _ ?_
    refine keys_nodup_assocUpdate _ _ _ ?_
    refine keys_nodup_assocUpdate _ _ _ ?_
    refine keys_nodup_assocUpdate _ _ _ ?_
    exact underscoreFold_keys_nodup hookExtra [] (by simp)
  have hperm := sortPairs_perm (sendEntry host now hookExtra e).extra
  have hkeyss : ∀ p ∈ sortPairs (sendEntry host now hookExtra e).extra,
      p.1.data.head? = some '_' := fun p hp => hkeys p (hperm.mem_iff.mp hp)
  have hnodups :
      ((sortPairs (sendEntry host now hookExtra e).extra).map Prod.fst).Nodup :=
    ((hperm.map Prod.fst).nodup_iff).mpr hnodup
  have hm : unmarshalPairs (sendEntry host now hookExtra e).marshalPairs =
      UnmarshalResult.ok
        { version := (sendEntry host now hookExtra e).version,
          host := (sendEntry host now hookExtra e).host,
          short := (sendEntry host now hookExtra e).short,
          full := (sendEntry host now hookExtra e).full,
          timeUnix := (sendEntry host now hookExtra e).timeUnix,
          level := goFloatToInt (((sendEntry host now hookExtra e).level : Rat)),
          facility := (sendEntry host now hookExtra e).facility,
          line := goFloatToInt (((sendEntry host now hookExtra e).line : Rat)),
          file := (sendEntry host now hookExtra e).file,
          extra := (sortPairs (sendEntry host now hookExtra e).extra).foldl
            (fun acc kv => assocUpdate kv.1 kv.2 acc) [] } := by
    show unmarshalFold emptyGELF ((sendEntry host now hookExtra e).fixedPairs ++
      sortPairs (sendEntry host now hookExtra e).extra) = _
    rw [unmarshalFold_fixedPairs]
    rw [unmarshalFold_underscoreAll _ hkeyss]
    rfl
  refine ⟨_, hm, ?_, ?_, ?_, ?_⟩
  · show goFloatToInt (((sendEntry host now hookExtra e).level : Rat)) =
      logrusLevelToSyslog e.level
    rw [goFloatToInt_intCast]
    rfl
  · rfl
  · rfl
  · show assocLookup ("_" ++ k)
      ((sortPairs (sendEntry host now hookExtra e).extra).foldl
        (fun acc kv => assocUpdate kv.1 kv.2 acc) []) = some v
    rw [lookup_foldl_update _ [] ("_" ++ k) hnodups]
    have hsorted : assocLookup ("_" ++ k)
        (sortPairs (sendEntry host now hookExtra e).extra) = some v := by
      rw [assocLookup_perm _ _ hperm ("_" ++ k) hnodups, hex]
      exact lookup_underscoreFold e.data hnd _ k v hkv
    rw [hsorted]

/-- Witness for C2 at a concrete record: info level, message `"hi"`,
one custom field `a = "x"`. -/
theorem encode_decode_roundtrip_witness :
    (([("a", Json.str "x")] : List (String × Json)).map Prod.fst).Nodup ∧
    assocLookup "a" [("a", Json.str "x")] = some (Json.str "x") ∧
    ∃ m', unmarshalPairs (sendEntry "h" 2 []
        { level := LogrusLevel.infoLevel, data := [("a", Json.str "x")],
          message := "hi", file := "f.go", line := 3,
          function := "fn" }).marshalPairs = UnmarshalResult.ok m' ∧
      m'.level = logrusLevelToSyslog LogrusLevel.infoLevel ∧
      m'.short = (shortFull "hi").1 ∧
      m'.full = (shortFull "hi").2 ∧
      assocLookup ("_" ++ "a") m'.extra = some (Json.str "x") :=
  ⟨by simp, rfl,
    encode_decode_roundtrip "h" 2 []
      { level := LogrusLevel.infoLevel, data := [("a", Json.str "x")],
        message := "hi", file := "f.go", line := 3, function := "fn" }
      "a" (Json.str "x") (by simp) rfl⟩

/-! ### C4: wrong-typed fixed fields. -/

/-- C4 (counterexample): the JSON input with the fixed field
`version` carried as a number does not make Deserialize return an
error — `UnmarshalJSON` panics on the failed `v.(string)` type
assertion instead. -/
theorem deserialize_wrong_type_counterexample :
    gelfUnmarshal (utf8Encode [Char.ofNat 123, Char.ofNat 34, 'v', 'e', 'r', 's', 'i',
      'o', 'n', Char.ofNat 34, ':', '7', Char.ofNat 125]) =
      DecodeRes.panicked "interface conversion" := by
  rfl

/-- C4 (amended): for every decoded JSON object in which one of the
fixed field names is present with the wrong JSON type, deserialization
does not succeed — `UnmarshalJSON` panics on the failed type assertion
(a Go run-time crash) rather than returning an error value. -/
theorem unmarshal_wrong_type_panics (pairs : List (String × Json)) (k : String)
    (v : Json) (hmem : (k, v) ∈ pairs) (hw : wrongTyped k v = true) :
    ∃ msg, unmarshalPairs pairs = UnmarshalResult.panicked msg :=
  unmarshalFold_panic_of_mem pairs k v hmem
    (fun m => ⟨"interface conversion", unmarshalStep_wrongTyped m k v hw⟩) emptyGELF

/-- Witness for the amended C4: a `level` member holding a string. -/
theorem unmarshal_wrong_type_panics_witness :
    ("level", Json.str "x") ∈ [("level", Json.str "x")] ∧
    wrongTyped "level" (Json.str "x") = true ∧
    ∃ msg, unmarshalPairs [("level", Json.str "x")] = UnmarshalResult.panicked msg :=
  ⟨List.mem_cons_self _ _, rfl,
    unmarshal_wrong_type_panics [("level", Json.str "x")] "level" (Json.str "x")
      (List.mem_cons_self _ _) rfl⟩

/-! ### C10: the empty-key panic. -/

/-- C10: Deserialize is not total — for every decoded object containing
the empty string as a key, `UnmarshalJSON` evaluates `k[0]` on the
empty key and panics; in particular the valid JSON input
`\x7b"":1\x7d` makes Deserialize panic with an index-out-of-range
error instead of returning a decode error. -/
theorem deserialize_empty_key_panics (pairs : List (String × Json)) (v : Json)
    (hmem : ("", v) ∈ pairs) :
    (∃ e, unmarshalPairs pairs = UnmarshalResult.panicked e) ∧
    gelfUnmarshal (utf8Encode [Char.ofNat 123, Char.ofNat 34, Char.ofNat 34, ':', '1',
      Char.ofNat 125]) =
      DecodeRes.panicked "runtime error: index out of range [0] with length 0" :=
  ⟨unmarshalFold_panic_of_mem pairs "" v hmem
      (fun m => ⟨_, unmarshalStep_empty_key m v⟩) emptyGELF,
   rfl⟩

/-- Witness for C10 at the one-member object with the empty key. -/
theorem deserialize_empty_key_panics_witness :
    ("", Json.num 1) ∈ [("", Json.num 1)] ∧
    ((∃ e, unmarshalPairs [("", Json.num 1)] = UnmarshalResult.panicked e) ∧
    gelfUnmarshal (utf8Encode [Char.ofNat 123, Char.ofNat 34, Char.ofNat 34, ':', '1',
      Char.ofNat 125]) =
      DecodeRes.panicked "runtime error: index out of range [0] with length 0") :=
  ⟨List.mem_cons_self _ _,
    deserialize_empty_key_panics [("", Json.num 1)] (Json.num 1)
      (List.mem_cons_self _ _)⟩

/-! ### C8: the durable-queue consumer loop. -/

/-- C8: in every `LaunchConsumeSync` iteration whose popped payload
decodes (base64, gzip, JSON) to a wire message `m`, the caller-supplied
handler is invoked with `m`; when the handler fails, the original
payload is pushed back onto the queue (so it will be redelivered) and
the handler's error is returned, and when it succeeds the loop
continues with the payload consumed. -/
theorem consume_invokes_and_requeues (handler : GELFMessage → Option String)
    (v : String) (rest : List String) (m : GELFMessage)
    (hdec : decodePayload v = DecodeRes.ok m) :
    consumeIteration handler v rest =
      { queue := if (handler m).isSome then rest ++ [v] else rest,
        handled := some m, returned := handler m, crashed := none } := by
  have hv : v ≠ "" := by
    intro h
    rw [h] at hdec
    have hval : decodePayload "" = DecodeRes.errored "gzip error" := rfl
    rw [hval] at hdec
    cases hdec
  unfold consumeIteration
  rw [if_neg hv, hdec]
  cases hh : handler m <;> simp [hh]

/-- Witness for C8: a concrete payload carrying `\x7b"_a":true\x7d`,
consumed by a failing handler, is pushed back onto the queue. -/
theorem consume_invokes_and_requeues_witness :
    decodePayload (String.mk (b64Encode (gzipCompress (utf8Encode
        [Char.ofNat 123, Char.ofNat 34, '_', 'a', Char.ofNat 34, ':',
         't', 'r', 'u', 'e', Char.ofNat 125])))) =
      DecodeRes.ok
        { version := "", host := "", short := "", full := "", timeUnix := 0,
          level := 0, facility := "", line := 0, file := "",
          extra := [("_a", Json.bool true)] } ∧
    consumeIteration (fun _ => some "handler failed")
        (String.mk (b64Encode (gzipCompress (utf8Encode
          [Char.ofNat 123, Char.ofNat 34, '_', 'a', Char.ofNat 34, ':',
           't', 'r', 'u', 'e', Char.ofNat 125])))) ["w"] =
      { queue := ["w"] ++ [String.mk (b64Encode (gzipCompress (utf8Encode
          [Char.ofNat 123, Char.ofNat 34, '_', 'a', Char.ofNat 34, ':',
           't', 'r', 'u', 'e', Char.ofNat 125])))],
        handled := some
          { version := "", host := "", short := "", full := "", timeUnix := 0,
            level := 0, facility := "", line := 0, file := "",
            extra := [("_a", Json.bool true)] },
        returned := some "handler failed", crashed := none } :=
  ⟨rfl,
    consume_invokes_and_requeues (fun _ => some "handler failed")
      (String.mk (b64Encode (gzipCompress (utf8Encode
        [Char.ofNat 123, Char.ofNat 34, '_', 'a', Char.ofNat 34, ':',
         't', 'r', 'u', 'e', Char.ofNat 125])))) ["w"]
      { version := "", host := "", short := "", full := "", timeUnix := 0,
        level := 0, facility := "", line := 0, file := "",
        extra := [("_a", Json.bool true)] } rfl⟩

end Graylog
